import Mathlib

/-!
# ShadowDiary — verification of the core data model

A shallow embedding, in Lean 4, of the core algorithms of the ShadowDiary
application (an Electron diary app whose main-process logic lives in
`src/main/database` and `src/main/utils`), together with theorems that settle
the specification claims about them.

Conventions used throughout the embedding:
* SQLite tables are modelled as functions from primary key to `Option` row
  (for `image_refs`, `settings`) or as row lists (for `diary_entries`,
  `tags`, `diary_tags`).
* JavaScript strings are modelled by `String`; scanning algorithms (the
  regex-based ones) work on `List Char` and are driven by explicit fuel so
  that every definition is a total, executable `def`.
* JavaScript `Set` insertion order is modelled by duplicate-free lists in
  insertion order; `Map` iteration order likewise.
* Timestamps (`Date.now()`) are passed in explicitly as `Nat` arguments.
-/

namespace ShadowDiary

/-! ## Small generic helpers shared by several modules -/

/-- Insertion-order deduplication: keep the first occurrence of each element.
Models the iteration order of a JavaScript `Set` built by repeated `add`. -/
def dedupKeepFirst (l : List String) : List String :=
  l.foldl (fun acc x => if x ∈ acc then acc else acc ++ [x]) []

theorem dedupKeepFirst_aux_nodup (l : List String) (acc : List String)
    (hacc : acc.Nodup) :
    (l.foldl (fun acc x => if x ∈ acc then acc else acc ++ [x]) acc).Nodup := by
  induction l generalizing acc with
  | nil => simpa using hacc
  | cons x xs ih =>
    by_cases hx : x ∈ acc
    · simpa [hx] using ih acc hacc
    · have : (acc ++ [x]).Nodup := by
        simp [List.nodup_append, hacc, hx]
      simpa [hx] using ih (acc ++ [x]) this

theorem dedupKeepFirst_nodup (l : List String) : (dedupKeepFirst l).Nodup :=
  dedupKeepFirst_aux_nodup l [] (by simp)

theorem dedupKeepFirst_aux_mem (l : List String) (acc : List String) (x : String) :
    x ∈ l.foldl (fun acc x => if x ∈ acc then acc else acc ++ [x]) acc ↔
      x ∈ l ∨ x ∈ acc := by
  induction l generalizing acc with
  | nil => simp
  | cons y ys ih =>
    by_cases hy : y ∈ acc
    · rw [List.foldl_cons, if_pos hy, ih]
      constructor
      · rintro (h | h)
        · exact Or.inl (List.mem_cons_of_mem _ h)
        · exact Or.inr h
      · rintro (h | h)
        · rcases List.mem_cons.mp h with rfl | h
          · exact Or.inr hy
          · exact Or.inl h
        · exact Or.inr h
    · rw [List.foldl_cons, if_neg hy, ih]
      constructor
      · rintro (h | h)
        · exact Or.inl (List.mem_cons_of_mem _ h)
        · rcases List.mem_append.mp h with h | h
          · exact Or.inr h
          · simp at h
            exact Or.inl (by simp [h])
      · rintro (h | h)
        · rcases List.mem_cons.mp h with rfl | h
          · exact Or.inr (by simp)
          · exact Or.inl h
        · exact Or.inr (List.mem_append.mpr (Or.inl h))

theorem dedupKeepFirst_mem (l : List String) (x : String) :
    x ∈ dedupKeepFirst l ↔ x ∈ l := by
  unfold dedupKeepFirst
  rw [dedupKeepFirst_aux_mem]
  simp

/-- Stable sort (JS `Array.prototype.sort` with a total-preorder comparator),
as a structurally recursive insertion sort: `le y x` means `y` may stay
before `x`, so equal elements keep their original order. -/
def insertStable {α : Type} (le : α → α → Bool) (x : α) : List α → List α
  | [] => [x]
  | y :: ys => if le y x then y :: insertStable le x ys else x :: y :: ys

def jsSort {α : Type} (le : α → α → Bool) (l : List α) : List α :=
  l.foldl (fun acc x => insertStable le x acc) []

/-- JavaScript regex `\s` character class (whitespace, including NBSP and the
unicode space separators). -/
def jsWhitespaceChar (c : Char) : Bool :=
  c = ' ' ∨ c = '\t' ∨ c = '\n' ∨ c = '\r' ∨ c = '\x0b' ∨ c = '\x0c' ∨
    c.toNat = 0xa0 ∨ c.toNat = 0x1680 ∨
    (0x2000 ≤ c.toNat ∧ c.toNat ≤ 0x200a) ∨
    c.toNat = 0x2028 ∨ c.toNat = 0x2029 ∨ c.toNat = 0x202f ∨
    c.toNat = 0x205f ∨ c.toNat = 0x3000 ∨ c.toNat = 0xfeff

/-- JavaScript `String.prototype.trim`: strip leading and trailing `\s`. -/
def jsTrimList (cs : List Char) : List Char :=
  ((cs.dropWhile jsWhitespaceChar).reverse.dropWhile jsWhitespaceChar).reverse

/-- JavaScript `String.prototype.trim` on `String`. -/
def jsTrim (s : String) : String := String.mk (jsTrimList s.data)

/-- The single-quote character (used by the attribute-value scanners). -/
def squote : Char := Char.ofNat 39

/-- Case-insensitive literal match: when `pat` is a prefix of `cs` up to ASCII
case, return the remainder (regex `i` flag on a literal). -/
def stripPrefixCI : List Char → List Char → Option (List Char)
  | [], cs => some cs
  | _ :: _, [] => none
  | p :: ps, c :: cs => if c.toLower = p.toLower then stripPrefixCI ps cs else none

/-- Maximal run of regex whitespace (`\s*`). -/
def skipWs (cs : List Char) : List Char := cs.dropWhile jsWhitespaceChar

/-- Split at the first occurrence of `target`: returns the chars before it and
the rest after it (regex `[^t]*t`). -/
def splitAtChar (target : Char) : List Char → Option (List Char × List Char)
  | [] => none
  | c :: cs =>
    if c = target then some ([], cs)
    else
      match splitAtChar target cs with
      | some (pre, post) => some (c :: pre, post)
      | none => none

/-! ## Image Reference Store — `src/main/database/imageRefs.ts`

The `image_refs` table (`migrations.ts`, version 7 schema) keyed by
`image_id`, with columns `ref_count` and `updated_at`.  Modelled as a
function from image id to optional row. -/

structure ImageRefRow where
  ref_count : Nat
  updated_at : Nat
  deriving Repr, DecidableEq

/-- The `image_refs` table. -/
def RefStore : Type := String → Option ImageRefRow

/-- `normalizeImageIdSet`: trims every id, drops empties, and deduplicates
keeping first occurrence (JS `Set` insertion order). -/
def normalizeImageIdSet (ids : List String) : List String :=
  dedupKeepFirst ((ids.map jsTrim).filter (fun t => t ≠ ""))

/-- The `INSERT ... ON CONFLICT(image_id) DO UPDATE SET ref_count = ref_count + 1`
statement of `syncImageRefs`. -/
def upsertRef (store : RefStore) (imageId : String) (now : Nat) : RefStore :=
  fun id =>
    if id = imageId then
      match store imageId with
      | some row => some { ref_count := row.ref_count + 1, updated_at := now }
      | none => some { ref_count := 1, updated_at := now }
    else store id

/-- The `UPDATE image_refs SET ref_count = CASE WHEN ref_count > 0 THEN
ref_count - 1 ELSE 0 END` statement: decrement with a floor at 0; a missing
row is left untouched (SQL `UPDATE` matches no row). -/
def decrementRef (store : RefStore) (imageId : String) (now : Nat) : RefStore :=
  fun id =>
    if id = imageId then
      match store imageId with
      | some row =>
          some { ref_count := if row.ref_count > 0 then row.ref_count - 1 else 0,
                 updated_at := now }
      | none => none
    else store id

/-- `DELETE FROM image_refs WHERE image_id = ?`. -/
def deleteRef (store : RefStore) (imageId : String) : RefStore :=
  fun id => if id = imageId then none else store id

/-- One iteration of the `removedIds` loop of `syncImageRefs`: decrement,
re-read the row, and when it is missing or its count is `<= 0` delete it and
append the id to the released list. -/
def processRemovedId (acc : RefStore × List String) (imageId : String) (now : Nat) :
    RefStore × List String :=
  match decrementRef acc.1 imageId now imageId with
  | none => (deleteRef (decrementRef acc.1 imageId now) imageId, acc.2 ++ [imageId])
  | some row =>
      if row.ref_count = 0 then
        (deleteRef (decrementRef acc.1 imageId now) imageId, acc.2 ++ [imageId])
      else (decrementRef acc.1 imageId now, acc.2)

/-- `syncImageRefs(oldIds, newIds)` (`imageRefs.ts`): diffs the two id sets,
increments the added ids, decrements the removed ids (releasing those whose
count reaches 0), inside one transaction.  Returns the updated store and the
released id list. -/
def syncImageRefs (oldIds newIds : List String) (now : Nat) (store : RefStore) :
    RefStore × List String :=
  let oldSet := normalizeImageIdSet oldIds
  let newSet := normalizeImageIdSet newIds
  let addedIds := newSet.filter (fun id => id ∉ oldSet)
  let removedIds := oldSet.filter (fun id => id ∉ newSet)
  if addedIds = [] ∧ removedIds = [] then (store, [])
  else
    let store1 := addedIds.foldl (fun s id => upsertRef s id now) store
    removedIds.foldl (fun acc id => processRemovedId acc id now) (store1, [])

/-! ### Pointwise characterization of `syncImageRefs` -/

theorem upsertRef_other (store : RefStore) (imageId : String) (now : Nat)
    (id : String) (h : id ≠ imageId) : upsertRef store imageId now id = store id := by
  simp [upsertRef, h]

theorem upsertFold_other (l : List String) (store : RefStore) (now : Nat)
    (id : String) (h : id ∉ l) :
    (l.foldl (fun s x => upsertRef s x now) store) id = store id := by
  induction l generalizing store with
  | nil => rfl
  | cons y ys ih =>
    have hy : id ≠ y := fun hid => h (hid ▸ List.mem_cons_self y ys)
    have hys : id ∉ ys := fun hid => h (List.mem_cons_of_mem _ hid)
    rw [List.foldl_cons, ih _ hys, upsertRef_other _ _ _ _ hy]

theorem upsertFold_mem (l : List String) (store : RefStore) (now : Nat)
    (id : String) (hnd : l.Nodup) (h : id ∈ l) :
    (l.foldl (fun s x => upsertRef s x now) store) id =
      some { ref_count := (match store id with
                           | some row => row.ref_count + 1
                           | none => 1),
             updated_at := now } := by
  induction l generalizing store with
  | nil => cases h
  | cons y ys ih =>
    rcases List.mem_cons.mp h with rfl | hmem
    · have hid : id ∉ ys := (List.nodup_cons.mp hnd).1
      rw [List.foldl_cons, upsertFold_other ys _ now id hid]
      cases hrow : store id <;> simp [upsertRef, hrow]
    · have hnd' : ys.Nodup := (List.nodup_cons.mp hnd).2
      have hne : id ≠ y := by
        rintro rfl
        exact (List.nodup_cons.mp hnd).1 hmem
      rw [List.foldl_cons, ih _ hnd' hmem, upsertRef_other _ _ _ _ hne]

theorem processRemovedId_other (acc : RefStore × List String) (imageId : String)
    (now : Nat) (id : String) (h : id ≠ imageId) :
    (processRemovedId acc imageId now).1 id = acc.1 id := by
  unfold processRemovedId
  cases hrow : acc.1 imageId with
  | none => simp [deleteRef, decrementRef, h, hrow]
  | some row =>
    by_cases hz : (if row.ref_count > 0 then row.ref_count - 1 else 0) = 0 <;>
      simp [deleteRef, decrementRef, h, hrow, hz]

theorem processRemovedId_rel (acc : RefStore × List String) (imageId : String)
    (now : Nat) :
    (processRemovedId acc imageId now).2 = acc.2 ∨
      (processRemovedId acc imageId now).2 = acc.2 ++ [imageId] := by
  unfold processRemovedId
  cases hrow : acc.1 imageId with
  | none => simp [decrementRef, hrow]
  | some row =>
    by_cases hz : (if row.ref_count > 0 then row.ref_count - 1 else 0) = 0 <;>
      simp [decrementRef, hrow, hz]

theorem removedFold_frame (l : List String) (acc : RefStore × List String)
    (now : Nat) (id : String) (h : id ∉ l) :
    (l.foldl (fun a x => processRemovedId a x now) acc).1 id = acc.1 id := by
  induction l generalizing acc with
  | nil => rfl
  | cons y ys ih =>
    have hy : id ≠ y := fun hid => h (hid ▸ List.mem_cons_self y ys)
    have hys : id ∉ ys := fun hid => h (List.mem_cons_of_mem _ hid)
    rw [List.foldl_cons, ih _ hys, processRemovedId_other _ _ _ _ hy]

theorem removedFold_rel_mono (l : List String) (acc : RefStore × List String)
    (now : Nat) (x : String) (h : x ∈ acc.2) :
    x ∈ (l.foldl (fun a x => processRemovedId a x now) acc).2 := by
  induction l generalizing acc with
  | nil => exact h
  | cons y ys ih =>
    rw [List.foldl_cons]
    apply ih
    rcases processRemovedId_rel acc y now with heq | heq <;> rw [heq]
    · exact h
    · exact List.mem_append.mpr (Or.inl h)

theorem removedFold_rel_subset (l : List String) (acc : RefStore × List String)
    (now : Nat) (x : String)
    (h : x ∈ (l.foldl (fun a x => processRemovedId a x now) acc).2) :
    x ∈ acc.2 ∨ x ∈ l := by
  induction l generalizing acc with
  | nil => exact Or.inl h
  | cons y ys ih =>
    rw [List.foldl_cons] at h
    rcases ih _ h with hx | hx
    · rcases processRemovedId_rel acc y now with heq | heq
      · rw [heq] at hx; exact Or.inl hx
      · rw [heq] at hx
        rcases List.mem_append.mp hx with hx | hx
        · exact Or.inl hx
        · simp at hx
          exact Or.inr (by simp [hx])
    · exact Or.inr (List.mem_cons_of_mem _ hx)

/-- What a single removed-id step does at its own key, expressed in terms of
the store it sees. -/
theorem processRemovedId_self (acc : RefStore × List String) (imageId : String)
    (now : Nat) :
    ((acc.1 imageId = none ∨
        ∃ row, acc.1 imageId = some row ∧ row.ref_count ≤ 1) →
      (processRemovedId acc imageId now).1 imageId = none ∧
        (processRemovedId acc imageId now).2 = acc.2 ++ [imageId]) ∧
    (∀ row, acc.1 imageId = some row → 2 ≤ row.ref_count →
      (processRemovedId acc imageId now).1 imageId =
          some { ref_count := row.ref_count - 1, updated_at := now } ∧
        (processRemovedId acc imageId now).2 = acc.2) := by
  constructor
  · rintro (hnone | ⟨row, hrow, hle⟩)
    · unfold processRemovedId
      simp [decrementRef, hnone, deleteRef]
    · have hdec : decrementRef acc.1 imageId now imageId =
          some { ref_count := if row.ref_count > 0 then row.ref_count - 1 else 0,
                 updated_at := now } := by
        simp [decrementRef, hrow]
      have hzero : (if row.ref_count > 0 then row.ref_count - 1 else 0) = 0 := by
        by_cases hc : row.ref_count > 0 <;> simp [hc] <;> omega
      unfold processRemovedId
      rw [hdec]
      simp [hzero, deleteRef]
  · intro row hrow h2
    have hdec : decrementRef acc.1 imageId now imageId =
        some { ref_count := if row.ref_count > 0 then row.ref_count - 1 else 0,
               updated_at := now } := by
      simp [decrementRef, hrow]
    have hpos : (if row.ref_count > 0 then row.ref_count - 1 else 0) =
        row.ref_count - 1 := by
      have hc : row.ref_count > 0 := by omega
      simp [hc]
    have hne : ¬ (row.ref_count - 1 = 0) := by omega
    unfold processRemovedId
    rw [hdec]
    simp only [hpos, hne, if_false]
    constructor
    · rw [hdec, hpos]
    · trivial

/-- Effect of the removed-ids loop at one removed id: the behaviour is decided
by the store contents when the loop starts (ids are processed once, and
distinct ids do not interfere). -/
theorem removedFold_mem (l : List String) (acc : RefStore × List String)
    (now : Nat) (id : String) (hnd : l.Nodup) (hmem : id ∈ l)
    (hrel : id ∉ acc.2) :
    ((acc.1 id = none ∨ ∃ row, acc.1 id = some row ∧ row.ref_count ≤ 1) →
      (l.foldl (fun a x => processRemovedId a x now) acc).1 id = none ∧
        id ∈ (l.foldl (fun a x => processRemovedId a x now) acc).2) ∧
    (∀ row, acc.1 id = some row → 2 ≤ row.ref_count →
      (l.foldl (fun a x => processRemovedId a x now) acc).1 id =
          some { ref_count := row.ref_count - 1, updated_at := now } ∧
        id ∉ (l.foldl (fun a x => processRemovedId a x now) acc).2) := by
  induction l generalizing acc with
  | nil => cases hmem
  | cons y ys ih =>
    have hnd' : ys.Nodup := (List.nodup_cons.mp hnd).2
    rcases List.mem_cons.mp hmem with rfl | hmem'
    · have hid : id ∉ ys := (List.nodup_cons.mp hnd).1
      constructor
      · intro hdead
        rw [List.foldl_cons]
        have hstep := (processRemovedId_self acc id now).1 hdead
        constructor
        · rw [removedFold_frame ys _ now id hid, hstep.1]
        · exact removedFold_rel_mono ys _ now id
            (by rw [hstep.2]; exact List.mem_append.mpr (Or.inr (by simp)))
      · intro row hrow h2
        rw [List.foldl_cons]
        have hstep := (processRemovedId_self acc id now).2 row hrow h2
        constructor
        · rw [removedFold_frame ys _ now id hid, hstep.1]
        · intro hin
          rcases removedFold_rel_subset ys _ now id hin with hin' | hin'
          · rw [hstep.2] at hin'; exact hrel hin'
          · exact hid hin'
    · have hne : id ≠ y := by
        rintro rfl
        exact (List.nodup_cons.mp hnd).1 hmem'
      have hrel' : id ∉ (processRemovedId acc y now).2 := by
        intro hin
        rcases processRemovedId_rel acc y now with heq | heq
        · rw [heq] at hin; exact hrel hin
        · rw [heq] at hin
          rcases List.mem_append.mp hin with hin' | hin'
          · exact hrel hin'
          · simp at hin'
            exact hne hin'
      have hself : (processRemovedId acc y now).1 id = acc.1 id :=
        processRemovedId_other acc y now id hne
      rw [List.foldl_cons]
      constructor
      · intro hdead
        exact (ih _ hnd' hmem' hrel').1 (by rw [hself]; exact hdead)
      · intro row hrow h2
        exact (ih _ hnd' hmem' hrel').2 row (by rw [hself]; exact hrow) h2

theorem normalizeImageIdSet_nodup (ids : List String) :
    (normalizeImageIdSet ids).Nodup :=
  dedupKeepFirst_nodup _

/-- If both diffs are empty, `syncImageRefs` is a no-op returning `[]`. -/
theorem syncImageRefs_noop (oldIds newIds : List String) (now : Nat)
    (store : RefStore)
    (hempty :
      (normalizeImageIdSet newIds).filter
          (fun id => id ∉ normalizeImageIdSet oldIds) = [] ∧
        (normalizeImageIdSet oldIds).filter
          (fun id => id ∉ normalizeImageIdSet newIds) = []) :
    syncImageRefs oldIds newIds now store = (store, []) := by
  simp only [syncImageRefs]
  rw [if_pos hempty]

theorem syncImageRefs_eq_fold (oldIds newIds : List String) (now : Nat)
    (store : RefStore)
    (hne :
      ¬ ((normalizeImageIdSet newIds).filter
            (fun id => id ∉ normalizeImageIdSet oldIds) = [] ∧
          (normalizeImageIdSet oldIds).filter
            (fun id => id ∉ normalizeImageIdSet newIds) = [])) :
    syncImageRefs oldIds newIds now store =
      ((normalizeImageIdSet oldIds).filter
          (fun id => id ∉ normalizeImageIdSet newIds)).foldl
        (fun acc id => processRemovedId acc id now)
        (((normalizeImageIdSet newIds).filter
            (fun id => id ∉ normalizeImageIdSet oldIds)).foldl
          (fun s id => upsertRef s id now) store, []) := by
  simp only [syncImageRefs]
  rw [if_neg hne]

/-- Full pointwise specification of `syncImageRefs`: what happens at an added
id, at a removed id, at an untouched id, and which ids are released. -/
theorem syncImageRefs_spec (oldIds newIds : List String) (now : Nat)
    (store : RefStore) (id : String) :
    (id ∈ normalizeImageIdSet newIds → id ∉ normalizeImageIdSet oldIds →
      (syncImageRefs oldIds newIds now store).1 id =
        some { ref_count := (match store id with
                             | some row => row.ref_count + 1
                             | none => 1),
               updated_at := now }) ∧
    (id ∈ normalizeImageIdSet oldIds → id ∉ normalizeImageIdSet newIds →
      ((store id = none ∨ ∃ row, store id = some row ∧ row.ref_count ≤ 1) →
        (syncImageRefs oldIds newIds now store).1 id = none ∧
          id ∈ (syncImageRefs oldIds newIds now store).2) ∧
      (∀ row, store id = some row → 2 ≤ row.ref_count →
        (syncImageRefs oldIds newIds now store).1 id =
            some { ref_count := row.ref_count - 1, updated_at := now } ∧
          id ∉ (syncImageRefs oldIds newIds now store).2)) ∧
    ((id ∈ normalizeImageIdSet oldIds ↔ id ∈ normalizeImageIdSet newIds) →
      (syncImageRefs oldIds newIds now store).1 id = store id) ∧
    (id ∈ (syncImageRefs oldIds newIds now store).2 →
      id ∈ normalizeImageIdSet oldIds ∧ id ∉ normalizeImageIdSet newIds) := by
  by_cases hempty :
      (normalizeImageIdSet newIds).filter
          (fun id => id ∉ normalizeImageIdSet oldIds) = [] ∧
        (normalizeImageIdSet oldIds).filter
          (fun id => id ∉ normalizeImageIdSet newIds) = []
  · rw [syncImageRefs_noop oldIds newIds now store hempty]
    refine ⟨?_, ?_, ?_, ?_⟩
    · intro hnew hold
      exact absurd (List.mem_filter.mpr ⟨hnew, decide_eq_true hold⟩)
        (by rw [hempty.1]; simp)
    · intro hold hnew
      exact absurd (List.mem_filter.mpr ⟨hold, decide_eq_true hnew⟩)
        (by rw [hempty.2]; simp)
    · intro _; rfl
    · intro h; cases h
  · rw [syncImageRefs_eq_fold oldIds newIds now store hempty]
    have haddnd : ((normalizeImageIdSet newIds).filter
        (fun id => id ∉ normalizeImageIdSet oldIds)).Nodup :=
      (normalizeImageIdSet_nodup newIds).filter _
    have hremnd : ((normalizeImageIdSet oldIds).filter
        (fun id => id ∉ normalizeImageIdSet newIds)).Nodup :=
      (normalizeImageIdSet_nodup oldIds).filter _
    refine ⟨?_, ?_, ?_, ?_⟩
    · intro hnew hold
      have hadd : id ∈ (normalizeImageIdSet newIds).filter
          (fun id => id ∉ normalizeImageIdSet oldIds) :=
        List.mem_filter.mpr ⟨hnew, decide_eq_true hold⟩
      have hrem : id ∉ (normalizeImageIdSet oldIds).filter
          (fun id => id ∉ normalizeImageIdSet newIds) := by
        intro hmem
        exact hold (List.mem_filter.mp hmem).1
      rw [removedFold_frame _ _ now id hrem]
      exact upsertFold_mem _ store now id haddnd hadd
    · intro hold hnew
      have hrem : id ∈ (normalizeImageIdSet oldIds).filter
          (fun id => id ∉ normalizeImageIdSet newIds) :=
        List.mem_filter.mpr ⟨hold, decide_eq_true hnew⟩
      have hadd : id ∉ (normalizeImageIdSet newIds).filter
          (fun id => id ∉ normalizeImageIdSet oldIds) := by
        intro hmem
        exact hnew (List.mem_filter.mp hmem).1
      have hstore1 : ((normalizeImageIdSet newIds).filter
            (fun id => id ∉ normalizeImageIdSet oldIds)).foldl
          (fun s id => upsertRef s id now) store id = store id :=
        upsertFold_other _ store now id hadd
      have hfold := removedFold_mem
        ((normalizeImageIdSet oldIds).filter
          (fun id => id ∉ normalizeImageIdSet newIds))
        (((normalizeImageIdSet newIds).filter
            (fun id => id ∉ normalizeImageIdSet oldIds)).foldl
          (fun s id => upsertRef s id now) store, [])
        now id hremnd hrem (by simp)
      constructor
      · intro hdead
        exact hfold.1 (by simpa only [hstore1] using hdead)
      · intro row hrow h2
        exact hfold.2 row (by simpa only [hstore1] using hrow) h2
    · intro hiff
      have hadd : id ∉ (normalizeImageIdSet newIds).filter
          (fun id => id ∉ normalizeImageIdSet oldIds) := by
        intro hmem
        have := List.mem_filter.mp hmem
        simp at this
        exact this.2 (hiff.mpr this.1)
      have hrem : id ∉ (normalizeImageIdSet oldIds).filter
          (fun id => id ∉ normalizeImageIdSet newIds) := by
        intro hmem
        have := List.mem_filter.mp hmem
        simp at this
        exact this.2 (hiff.mp this.1)
      rw [removedFold_frame _ _ now id hrem]
      exact upsertFold_other _ store now id hadd
    · intro hmem
      rcases removedFold_rel_subset _ _ now id hmem with h | h
      · cases h
      · have := List.mem_filter.mp h
        simp at this
        exact this

/-! ## Content Sanitizer — `stripHtmlToPlain` (`migrations.ts`) and
`sanitizeDiaryHtml` (`diary.ts`)

Each JavaScript regex replace pass is embedded as a left-to-right scanner
over `List Char`, driven by explicit fuel (`cs.length + 1` always suffices:
every step either consumes at least one character or ends the scan). -/

/-- Match of `<br\s*\/?>` at the head of the input (case-insensitive);
returns the rest after the match. -/
def matchBrAt (cs : List Char) : Option (List Char) :=
  match cs with
  | '<' :: rest =>
    match stripPrefixCI ['b', 'r'] rest with
    | some r1 =>
      let r2 := skipWs r1
      match r2 with
      | '/' :: '>' :: r3 => some r3
      | '>' :: r3 => some r3
      | _ => none
    | none => none
  | _ => none

/-- `.replace(/<br\s*\/?>/gi, '\n')`. -/
def replaceBrPass : Nat → List Char → List Char
  | 0, cs => cs
  | _ + 1, [] => []
  | fuel + 1, c :: rest =>
    match matchBrAt (c :: rest) with
    | some r => '\n' :: replaceBrPass fuel r
    | none => c :: replaceBrPass fuel rest

/-- Global case-insensitive literal replace (e.g. `.replace(/<\/p>/gi, ...)`). -/
def replaceLiteralCI (tok repl : List Char) : Nat → List Char → List Char
  | 0, cs => cs
  | _ + 1, [] => []
  | fuel + 1, c :: rest =>
    match stripPrefixCI tok (c :: rest) with
    | some r => repl ++ replaceLiteralCI tok repl fuel r
    | none => c :: replaceLiteralCI tok repl fuel rest

/-- Global case-sensitive literal replace (entity decoding). -/
def replaceLiteralCS (tok repl : List Char) : Nat → List Char → List Char
  | 0, cs => cs
  | _ + 1, [] => []
  | fuel + 1, c :: rest =>
    if tok ≠ [] ∧ tok.isPrefixOf (c :: rest) then
      repl ++ replaceLiteralCS tok repl fuel (List.drop tok.length (c :: rest))
    else c :: replaceLiteralCS tok repl fuel rest

/-- `.replace(/<[^>]*>/g, '')`: drop through the next `>` when there is one,
otherwise the `<` stays. -/
def stripTagsPass : Nat → List Char → List Char
  | 0, cs => cs
  | _ + 1, [] => []
  | fuel + 1, c :: rest =>
    if c = '<' then
      match splitAtChar '>' rest with
      | some (_, after) => stripTagsPass fuel after
      | none => c :: stripTagsPass fuel rest
    else c :: stripTagsPass fuel rest

/-- `.replace(/\n{3,}/g, '\n\n')`: collapse runs of three or more newlines. -/
def collapseNewlinesPass : Nat → List Char → List Char
  | 0, cs => cs
  | _ + 1, [] => []
  | fuel + 1, c :: rest =>
    if c = '\n' then
      let run := List.takeWhile (fun x => x = '\n') (c :: rest)
      let after := List.dropWhile (fun x => x = '\n') (c :: rest)
      (if run.length ≥ 3 then ['\n', '\n'] else run) ++
        collapseNewlinesPass fuel after
    else c :: collapseNewlinesPass fuel rest

/-- `stripHtmlToPlain` (`migrations.ts` lines 9-22): convert `<br>`/`</p>` to
newlines, strip the remaining tags, decode the fixed entity set, collapse
3+ newlines to 2, and trim. -/
def stripHtmlToPlain (html : String) : String :=
  let s0 := html.data
  let s1 := replaceBrPass (s0.length + 1) s0
  let s2 := replaceLiteralCI ['<', '/', 'p', '>'] ['\n'] (s1.length + 1) s1
  let s3 := stripTagsPass (s2.length + 1) s2
  let s4 := replaceLiteralCS "&nbsp;".data [' '] (s3.length + 1) s3
  let s5 := replaceLiteralCS "&amp;".data ['&'] (s4.length + 1) s4
  let s6 := replaceLiteralCS "&lt;".data ['<'] (s5.length + 1) s5
  let s7 := replaceLiteralCS "&gt;".data ['>'] (s6.length + 1) s6
  let s8 := replaceLiteralCS "&quot;".data ['"'] (s7.length + 1) s7
  let s9 := replaceLiteralCS "&#39;".data [squote] (s8.length + 1) s8
  let s10 := collapseNewlinesPass (s9.length + 1) s9
  String.mk (jsTrimList s10)

/-- The deny-list of `sanitizeDiaryHtml` (`blockedHtmlTags`). -/
def blockedHtmlTags : List String :=
  ["script", "style", "iframe", "object", "embed", "form", "input", "button",
   "textarea", "select", "option", "link", "meta", "base"]

/-- JS `\b` word characters (`[A-Za-z0-9_]`). -/
def isJsWordChar (c : Char) : Bool := c.isAlpha ∨ c.isDigit ∨ c = '_'

/-- Try the blocked-tag alternation at the head of the input, requiring the
`\b` boundary after the tag name. -/
def tryBlockedTags : List String → List Char → Option (String × List Char)
  | [], _ => none
  | t :: ts, cs =>
    match stripPrefixCI t.data cs with
    | some rest =>
      if (match rest with
          | [] => true
          | c :: _ => ¬ isJsWordChar c) then
        some (t, rest)
      else tryBlockedTags ts cs
    | none => tryBlockedTags ts cs

/-- Match of `<\s*(tag)\b[^>]*>` at the head of the input. -/
def matchBlockedOpenAt (cs : List Char) : Option (String × List Char) :=
  match cs with
  | '<' :: rest =>
    match tryBlockedTags blockedHtmlTags (skipWs rest) with
    | some (t, r1) =>
      match splitAtChar '>' r1 with
      | some (_, r2) => some (t, r2)
      | none => none
    | none => none
  | _ => none

/-- Match of `<\s*\/\s*tag\s*>` at the head of the input. -/
def matchCloseTagAt (tag : List Char) (cs : List Char) : Option (List Char) :=
  match cs with
  | '<' :: rest =>
    match skipWs rest with
    | '/' :: r1 =>
      match stripPrefixCI tag (skipWs r1) with
      | some r2 =>
        match skipWs r2 with
        | '>' :: r3 => some r3
        | _ => none
      | none => none
    | _ => none
  | _ => none

/-- Lazy search (`[\s\S]*?`) for the earliest closing tag; returns the rest
after it. -/
def findCloseTag (tag : List Char) : Nat → List Char → Option (List Char)
  | 0, _ => none
  | _ + 1, [] => none
  | fuel + 1, c :: rest =>
    match matchCloseTagAt tag (c :: rest) with
    | some r => some r
    | none => findCloseTag tag fuel rest

/-- First sanitizer pass: remove each blocked element together with its whole
content span, up to the earliest matching closing tag; an unterminated
blocked element is left in place (the regex does not match it). -/
def removeBlockedElementsPass : Nat → List Char → List Char
  | 0, cs => cs
  | _ + 1, [] => []
  | fuel + 1, c :: rest =>
    match matchBlockedOpenAt (c :: rest) with
    | some (t, afterOpen) =>
      match findCloseTag t.data (afterOpen.length + 1) afterOpen with
      | some afterClose => removeBlockedElementsPass fuel afterClose
      | none => c :: removeBlockedElementsPass fuel rest
    | none => c :: removeBlockedElementsPass fuel rest

/-- Second sanitizer pass: `<\s*(?:tag)\b[^>]*\/?>` — remove remaining
blocked open or self-closing tags. -/
def removeBlockedSingleTagsPass : Nat → List Char → List Char
  | 0, cs => cs
  | _ + 1, [] => []
  | fuel + 1, c :: rest =>
    match matchBlockedOpenAt (c :: rest) with
    | some (_, afterOpen) => removeBlockedSingleTagsPass fuel afterOpen
    | none => c :: removeBlockedSingleTagsPass fuel rest

/-- Attribute value per `(".*?"|\x27.*?\x27|[^\s>]+)` (with the `s` flag, so
`.` crosses newlines): a double- or single-quoted span through the matching
quote, or else a maximal run of non-whitespace non-`>` characters. -/
def matchAttrValue (cs : List Char) : Option (List Char) :=
  match cs with
  | '"' :: r1 =>
    match splitAtChar '"' r1 with
    | some (_, r2) => some r2
    | none =>
      let v := List.takeWhile (fun c => ¬ jsWhitespaceChar c ∧ c ≠ '>') cs
      if v = [] then none else some (List.dropWhile (fun c => ¬ jsWhitespaceChar c ∧ c ≠ '>') cs)
  | c :: r1 =>
    if c = squote then
      match splitAtChar squote r1 with
      | some (_, r2) => some r2
      | none =>
        let v := List.takeWhile (fun c => ¬ jsWhitespaceChar c ∧ c ≠ '>') cs
        if v = [] then none else some (List.dropWhile (fun c => ¬ jsWhitespaceChar c ∧ c ≠ '>') cs)
    else
      let v := List.takeWhile (fun c => ¬ jsWhitespaceChar c ∧ c ≠ '>') cs
      if v = [] then none else some (List.dropWhile (fun c => ¬ jsWhitespaceChar c ∧ c ≠ '>') cs)
  | [] => none

/-- Match of `\s+on[a-z]+\s*=\s*(value)` at the head of the input
(flags `gis`). -/
def matchEventHandlerAt (cs : List Char) : Option (List Char) :=
  let ws := List.takeWhile jsWhitespaceChar cs
  if ws = [] then none
  else
    match stripPrefixCI ['o', 'n'] (List.dropWhile jsWhitespaceChar cs) with
    | some r1 =>
      let letters := List.takeWhile Char.isAlpha r1
      if letters = [] then none
      else
        match skipWs (List.dropWhile Char.isAlpha r1) with
        | '=' :: r2 => matchAttrValue (skipWs r2)
        | _ => none
    | none => none

/-- Third sanitizer pass: strip inline event-handler attributes. -/
def removeEventHandlersPass : Nat → List Char → List Char
  | 0, cs => cs
  | _ + 1, [] => []
  | fuel + 1, c :: rest =>
    match matchEventHandlerAt (c :: rest) with
    | some r => removeEventHandlersPass fuel r
    | none => c :: removeEventHandlersPass fuel rest

/-- Match of `\s+(href|src)\s*=\s*(['\x22])\s*SCHEME[\s\S]*?\2` at the head
of the input, for a given scheme literal. -/
def matchDangerousUriAt (scheme : List Char) (cs : List Char) : Option (List Char) :=
  let ws := List.takeWhile jsWhitespaceChar cs
  if ws = [] then none
  else
    let r0 := List.dropWhile jsWhitespaceChar cs
    let afterAttr :=
      match stripPrefixCI ['h', 'r', 'e', 'f'] r0 with
      | some r => some r
      | none => stripPrefixCI ['s', 'r', 'c'] r0
    match afterAttr with
    | some r1 =>
      match skipWs r1 with
      | '=' :: r2 =>
        match skipWs r2 with
        | q :: r3 =>
          if q = '"' ∨ q = squote then
            match stripPrefixCI scheme (skipWs r3) with
            | some r4 =>
              match splitAtChar q r4 with
              | some (_, r5) => some r5
              | none => none
            | none => none
          else none
        | [] => none
      | _ => none
    | none => none

/-- Fourth and fifth sanitizer passes: strip `href`/`src` attributes whose
quoted value starts with a dangerous scheme. -/
def removeDangerousUriPass (scheme : List Char) : Nat → List Char → List Char
  | 0, cs => cs
  | _ + 1, [] => []
  | fuel + 1, c :: rest =>
    match matchDangerousUriAt scheme (c :: rest) with
    | some r => removeDangerousUriPass scheme fuel r
    | none => c :: removeDangerousUriPass scheme fuel rest

/-- Contiguous-sublist test (substring / phrase containment). -/
def containsSub {α : Type} [BEq α] (needle : List α) : List α → Bool
  | [] => needle.isEmpty
  | c :: rest => needle.isPrefixOf (c :: rest) || containsSub needle rest

/-- Match of `\s+style\s*=\s*(['\x22])([\s\S]*?)\1` at the head of the
input: returns the quote, the style value and the rest. -/
def matchStyleAt (cs : List Char) : Option (Char × List Char × List Char) :=
  let ws := List.takeWhile jsWhitespaceChar cs
  if ws = [] then none
  else
    match stripPrefixCI ['s', 't', 'y', 'l', 'e'] (List.dropWhile jsWhitespaceChar cs) with
    | some r1 =>
      match skipWs r1 with
      | '=' :: r2 =>
        match skipWs r2 with
        | q :: r3 =>
          if q = '"' ∨ q = squote then
            match splitAtChar q r3 with
            | some (v, r4) => some (q, v, r4)
            | none => none
          else none
        | [] => none
      | _ => none
    | none => none

/-- Sixth sanitizer pass: drop `style` attributes whose lowered value contains
`expression`, `javascript:` or `url(`; keep the others, re-emitted as
a single space, lowercase `style=`, and the original quote and value. -/
def filterStylePass : Nat → List Char → List Char
  | 0, cs => cs
  | _ + 1, [] => []
  | fuel + 1, c :: rest =>
    match matchStyleAt (c :: rest) with
    | some (q, v, r) =>
      let lowered := v.map Char.toLower
      if containsSub "expression".data lowered ∨ containsSub "javascript:".data lowered ∨
          containsSub "url(".data lowered then
        filterStylePass fuel r
      else
        (' ' :: "style=".data) ++ (q :: v) ++ [q] ++ filterStylePass fuel r
    | none => c :: filterStylePass fuel rest

/-- `sanitizeDiaryHtml` (`diary.ts` lines 161-191): the six regex-replace
passes in source order. -/
def sanitizeDiaryHtml (content : String) : String :=
  let s0 := content.data
  let s1 := removeBlockedElementsPass (s0.length + 1) s0
  let s2 := removeBlockedSingleTagsPass (s1.length + 1) s1
  let s3 := removeEventHandlersPass (s2.length + 1) s2
  let s4 := removeDangerousUriPass "javascript:".data (s3.length + 1) s3
  let s5 := removeDangerousUriPass "data:text/html".data (s4.length + 1) s4
  let s6 := filterStylePass (s5.length + 1) s5
  String.mk s6


/-! ## Data model — `diary_entries`, `tags`, `diary_tags`, `archives`

Row types mirror the SQLite schema of `migrations.ts`; the database is a
record of row lists.  Moods are strings (the `Mood` enum of the source is a
string union type). -/

/-- `toLocaleLowerCase` / `toLowerCase` (ASCII case folding). -/
def jsToLower (s : String) : String := String.mk (s.data.map Char.toLower)

/-- `str.split(/\s+/).filter(Boolean)`: whitespace-separated tokens. -/
def splitOnWs (s : String) : List String :=
  ((s.data.splitOnP jsWhitespaceChar).map String.mk).filter (fun t => t ≠ "")

/-- `splitAliases` (`diary.ts`): split the stored alias string on
`[,，、;；\n\r]+`, trim each part, drop empties. -/
def aliasSeparatorChar (c : Char) : Bool :=
  c = ',' ∨ c = '，' ∨ c = '、' ∨ c = ';' ∨ c = '；' ∨ c = '\n' ∨ c = '\r'

def splitAliases («alias» : Option String) : List String :=
  match «alias» with
  | none => []
  | some a =>
    (((a.data.splitOnP aliasSeparatorChar).map String.mk).map jsTrim).filter
      (fun t => t ≠ "")

structure DiaryRow where
  id : String
  title : String
  content : String
  plain_content : String
  mood : String
  weather : Option String
  created_at : Int
  updated_at : Int
  deriving Repr, DecidableEq

structure TagRow where
  id : Nat
  name : String
  deriving Repr, DecidableEq

structure ArchiveRow where
  id : String
  name : String
  «alias» : Option String
  description : Option String
  type : String
  main_image : Option String
  images : Option String
  created_at : Int
  updated_at : Int
  deriving Repr, DecidableEq

structure DB where
  entries : List DiaryRow
  tags : List TagRow
  diary_tags : List (String × Nat)
  archives : List ArchiveRow
  nextTagId : Nat
  deriving Repr, DecidableEq

/-- `syncTags` (`diary.ts`): delete all tag associations of the diary, then
for each tag name insert-or-ignore the tag row and the association. -/
def syncTagsStep (db : DB) (diaryId : String) (tag : String) : DB :=
  let db1 :=
    if db.tags.any (fun t => t.name = tag) then db
    else { db with tags := db.tags ++ [{ id := db.nextTagId, name := tag }],
                   nextTagId := db.nextTagId + 1 }
  match db1.tags.find? (fun t => t.name = tag) with
  | some t =>
    if (diaryId, t.id) ∈ db1.diary_tags then db1
    else { db1 with diary_tags := db1.diary_tags ++ [(diaryId, t.id)] }
  | none => db1

def syncTags (db : DB) (diaryId : String) (tags : List String) : DB :=
  let db0 := { db with diary_tags := db.diary_tags.filter (fun dt => dt.1 ≠ diaryId) }
  if tags = [] then db0
  else tags.foldl (fun dbAcc tag => syncTagsStep dbAcc diaryId tag) db0

/-- The argument record of `saveDiaryEntry`. -/
structure DiaryEntryInput where
  id : Option String
  title : String
  content : String
  mood : String
  tags : Option (List String)
  weather : Option String
  createdAt : Option Int
  deriving Repr, DecidableEq

/-- JS truthiness of `entry.id` (`undefined` and the empty string are falsy). -/
def hasTruthyId (e : DiaryEntryInput) : Bool :=
  match e.id with
  | some s => s ≠ ""
  | none => false

/-- `saveDiaryEntry` (`diary.ts` lines 245-303): sanitize the content, derive
the plain-text mirror, then update in place when a truthy `entry.id` exists,
otherwise insert (with `entry.id || randomUUID()` — `freshId` stands for the
generated UUID).  Returns the updated database and the saved id. -/
def saveDiaryEntry (db : DB) (e : DiaryEntryInput) (now : Int) (freshId : String) :
    DB × String :=
  let sanitizedContent := sanitizeDiaryHtml e.content
  let plainContent := stripHtmlToPlain sanitizedContent
  if hasTruthyId e ∧ db.entries.any (fun r => r.id = e.id.getD "") then
    let i := e.id.getD ""
    let db1 := { db with entries := db.entries.map (fun r =>
      if r.id = i then
        { r with title := e.title, content := sanitizedContent,
                 plain_content := plainContent, mood := e.mood,
                 weather := e.weather, updated_at := now }
      else r) }
    (syncTags db1 i (e.tags.getD []), i)
  else
    let newId := if hasTruthyId e then e.id.getD "" else freshId
    let createdAt := e.createdAt.getD now
    let row : DiaryRow :=
      { id := newId, title := e.title, content := sanitizedContent,
        plain_content := plainContent, mood := e.mood, weather := e.weather,
        created_at := createdAt, updated_at := now }
    let db1 := { db with entries := db.entries ++ [row] }
    (syncTags db1 newId (e.tags.getD []), newId)

/-- `SELECT * FROM diary_entries WHERE id = ?` (`getDiaryEntry`). -/
def getDiaryRow (db : DB) (id : String) : Option DiaryRow :=
  db.entries.find? (fun r => r.id = id)


/-! ## Search Engine — `searchDiaries` (`diary.ts` lines 336-512)

The SQL query is embedded as a row predicate.  The FTS5 `unicode61` index is
modelled by a tokenizer that splits on non-alphanumeric ASCII (non-ASCII
characters count as token characters, as under `unicode61`); a quoted FTS
term matches a row when its token sequence occurs contiguously in the
tokenization of the title or of the plain content.  `LIKE '%kw%' ESCAPE
'\' COLLATE NOCASE` with the `escapeLikePattern`-escaped keyword is exactly
case-insensitive substring containment.  The local-calendar-day arithmetic
on `dateTo` is embedded with UTC days (`86400000` ms). -/

structure SearchParams where
  keyword : Option String
  mood : Option String
  tags : Option (List String)
  dateFrom : Option Int
  dateTo : Option Int
  limit : Option Nat
  offset : Option Nat
  deriving Repr, DecidableEq

structure SearchResult where
  entries : List DiaryRow
  total : Nat
  expandedKeywords : Option (List String)
  deriving Repr, DecidableEq

/-- `expandKeywordWithArchiveAliases` (`diary.ts` lines 336-357): archives
whose lowered name or alias contains the lowered keyword contribute their
name and all their aliases; the original keyword always comes first. -/
def expandKeywordWithArchiveAliases (archives : List ArchiveRow) (keyword : String) :
    List String :=
  let lowerKw := jsToLower keyword
  let rows := archives.filter (fun a =>
    containsSub lowerKw.data (jsToLower a.name).data ||
      (match a.«alias» with
       | some al => containsSub lowerKw.data (jsToLower al).data
       | none => false))
  dedupKeepFirst (keyword :: rows.flatMap (fun r => r.name :: splitAliases r.«alias»))

/-- The keyword groups of `searchDiaries`: the keyword is trimmed, split on
whitespace, and every term is expanded, trimmed, deduplicated and cleaned of
empties. -/
def searchKeywordGroups (archives : List ArchiveRow) (keyword : String) :
    List (List String) :=
  (splitOnWs (jsTrim keyword)).filterMap (fun kw =>
    let expanded :=
      (dedupKeepFirst ((expandKeywordWithArchiveAliases archives kw).map jsTrim)).filter
        (fun t => t ≠ "")
    if expanded = [] then none else some expanded)

/-- `quoteFtsToken` drops terms that trim to nothing; `buildFtsMatchExpression`
drops groups with no remaining term and returns `null` when no group
survives.  The quoting itself does not change which rows match, so the
expression is modelled as the surviving groups. -/
def buildFtsMatchExpression (keywordGroups : List (List String)) :
    Option (List (List String)) :=
  let groups := (keywordGroups.map (fun g =>
    (g.map jsTrim).filter (fun t => t ≠ ""))).filter (fun g => g ≠ [])
  if groups = [] then none else some groups

/-- `unicode61` token character (ASCII alphanumeric; non-ASCII code points are
token characters too). -/
def ftsTokenChar (c : Char) : Bool := c.isAlpha ∨ c.isDigit ∨ 0x80 ≤ c.toNat

/-- The `unicode61` tokenizer: lowered maximal runs of token characters. -/
def ftsTokenize (s : String) : List String :=
  (((jsToLower s).data.splitOnP (fun c => ¬ ftsTokenChar c)).map String.mk).filter
    (fun t => t ≠ "")

/-- A quoted FTS term, as a phrase, matching some column of the row. -/
def ftsTermMatchesRow (row : DiaryRow) (term : String) : Bool :=
  let phrase := ftsTokenize term
  (!phrase.isEmpty) &&
    (containsSub phrase (ftsTokenize row.title) ||
      containsSub phrase (ftsTokenize row.plain_content))

/-- `diary_search_fts MATCH expr` for the AND-of-OR-groups expression. -/
def ftsMatchRow (row : DiaryRow) (groups : List (List String)) : Bool :=
  groups.all (fun g => g.any (fun term => ftsTermMatchesRow row term))

/-- One `title LIKE ? OR plain_content LIKE ?` disjunct (`escapeLikePattern`
makes the keyword literal, so this is case-insensitive substring search). -/
def likeMatchRow (row : DiaryRow) (keyword : String) : Bool :=
  containsSub (jsToLower keyword).data (jsToLower row.title).data ∨
    containsSub (jsToLower keyword).data (jsToLower row.plain_content).data

/-- The whole keyword condition: FTS hit OR-ed with the AND-of-OR LIKE
fallback (`diary.ts` lines 418-460); `True` when there is no keyword group. -/
def keywordCondRow (row : DiaryRow) (keywordGroups : List (List String)) : Bool :=
  if keywordGroups = [] then true
  else
    let ftsHit :=
      match buildFtsMatchExpression keywordGroups with
      | some groups => ftsMatchRow row groups
      | none => false
    let likeHit := keywordGroups.all (fun g => g.any (fun kw => likeMatchRow row kw))
    ftsHit || likeHit

/-- Names of the tags attached to a diary (join of `diary_tags` and `tags`). -/
def diaryTagNames (db : DB) (diaryId : String) : List String :=
  (db.diary_tags.filter (fun dt => dt.1 = diaryId)).filterMap (fun dt =>
    (db.tags.find? (fun t => t.id = dt.2)).map (fun t => t.name))

/-- The tag filter subquery: `GROUP BY diary_id HAVING COUNT(DISTINCT t.name)
= ?` over the joined rows whose tag name is in the filter list. -/
def tagCondRow (db : DB) (ts : List String) (row : DiaryRow) : Bool :=
  (dedupKeepFirst ((diaryTagNames db row.id).filter (fun n => n ∈ ts))).length =
    ts.length

/-- Start of the next UTC day (embeds the `new Date(...)` local-midnight
arithmetic of the `dateTo` handling). -/
def nextDayStart (t : Int) : Int := (t.fdiv 86400000 + 1) * 86400000

/-- The conjunction of every filter `searchDiaries` pushes into the `WHERE`
clause, evaluated at one row. -/
def searchCondRow (db : DB) (params : SearchParams) (row : DiaryRow) : Bool :=
  keywordCondRow row (searchKeywordGroups db.archives (params.keyword.getD "")) &&
    (match params.mood with
     | some m => if m ≠ "" then row.mood == m else true
     | none => true) &&
    (match params.dateFrom with
     | some d => decide (d ≤ row.created_at)
     | none => true) &&
    (match params.dateTo with
     | some d => decide (row.created_at < nextDayStart d)
     | none => true) &&
    (match params.tags with
     | some ts => if ts ≠ [] then tagCondRow db ts row else true
     | none => true)

/-- `searchDiaries` (`diary.ts` lines 381-512): filter, count, order by
`created_at DESC`, page, and return `expandedKeywords` whenever the
collected set is non-empty. -/
def searchDiaries (db : DB) (params : SearchParams) : SearchResult :=
  let limit := params.limit.getD 20
  let offset := params.offset.getD 0
  let keywordGroups := searchKeywordGroups db.archives (params.keyword.getD "")
  let allExpandedKeywords := dedupKeepFirst keywordGroups.flatten
  let matching := db.entries.filter (fun row => searchCondRow db params row)
  let ordered := jsSort (fun a b => b.created_at ≤ a.created_at) matching
  { entries := (ordered.drop offset).take limit,
    total := matching.length,
    expandedKeywords :=
      if allExpandedKeywords ≠ [] then some allExpandedKeywords else none }


/-! ## Image Extraction — `extractImageIds` (`imageStorage.ts` lines 228-238)

The regex `/diary-image:\/\/([a-f0-9-]+)(?:_thumb)?\.[a-z0-9]+/gi`, embedded
as a scanner.  The greedy captured group takes the maximal run of
`[a-f0-9-]` characters; since `_` and `.` are outside that class, the only
backtracking point of the regex is the optional `_thumb`. -/

/-- `[a-f0-9-]` with the `i` flag. -/
def imageIdChar (c : Char) : Bool :=
  ('a' ≤ c.toLower ∧ c.toLower ≤ 'f') ∨ c.isDigit ∨ c = '-'

/-- `[a-z0-9]` with the `i` flag. -/
def imageExtChar (c : Char) : Bool :=
  ('a' ≤ c.toLower ∧ c.toLower ≤ 'z') ∨ c.isDigit

/-- `\.[a-z0-9]+`: a dot followed by a non-empty extension run. -/
def matchImageTail (cs : List Char) : Option (List Char) :=
  match cs with
  | '.' :: r =>
    let ext := r.takeWhile imageExtChar
    if ext = [] then none else some (r.dropWhile imageExtChar)
  | _ => none

/-- The whole pattern at the head of the input; returns the captured group
(original case) and the rest after the match. -/
def matchDiaryImageAt (cs : List Char) : Option (String × List Char) :=
  match stripPrefixCI "diary-image://".data cs with
  | some r1 =>
    let idRun := r1.takeWhile imageIdChar
    if idRun = [] then none
    else
      let r2 := r1.dropWhile imageIdChar
      let tail :=
        match stripPrefixCI "_thumb".data r2 with
        | some r3 =>
          match matchImageTail r3 with
          | some rest => some rest
          | none => matchImageTail r2
        | none => matchImageTail r2
      match tail with
      | some rest => some (String.mk idRun, rest)
      | none => none
  | none => none

def extractImageIdsAux : Nat → List Char → List String
  | 0, _ => []
  | _ + 1, [] => []
  | fuel + 1, c :: rest =>
    match matchDiaryImageAt (c :: rest) with
    | some (id, r) => id :: extractImageIdsAux fuel r
    | none => extractImageIdsAux fuel rest

/-- `extractImageIds`: every match of the pattern, in text order, one entry
per occurrence (the function itself does not deduplicate). -/
def extractImageIds (html : String) : List String :=
  extractImageIdsAux (html.data.length + 1) html.data

/-- `collectImageIdsFromText` (`imageRefs.ts`): empty for a falsy input,
otherwise the extracted ids normalized (trimmed, de-emptied, deduplicated). -/
def collectImageIdsFromText (content : Option String) : List String :=
  match content with
  | none => []
  | some c => if c = "" then [] else normalizeImageIdSet (extractImageIds c)

/-- `collectImageIdsFromTexts` (`imageRefs.ts`): union over several texts,
in text order, deduplicated. -/
def collectImageIdsFromTexts (contents : List (Option String)) : List String :=
  dedupKeepFirst (contents.flatMap (fun c =>
    match c with
    | none => []
    | some s =>
      if s = "" then []
      else ((extractImageIds s).map jsTrim).filter (fun t => t ≠ "")))


/-! ## Person-Mention Analytics — `diary.ts` lines 598-800

The matcher built by `buildPersonMentionMatcher` and the regex-driven
counting loops.  JS `Map`s become insertion-ordered association lists,
JS `Set`s of owner indices become duplicate-free lists.  The compiled
alternation (`mentionRegex`, flags `giu`) becomes the ordered key list
`orderedTokens`; its matching loop is `findMatches`: at every position the
first (hence longest, by the sort) key that matches case-insensitively wins,
and scanning resumes after the match.  A zero-length key would make the JS
loop spin forever; the scanner advances one character instead, which is
unreachable for matchers whose keys are non-empty. -/

structure PersonTokenMeta where
  personIndex : Nat
  isAlias : Bool
  charLength : Nat
  deriving Repr, DecidableEq

structure PersonArchiveRow where
  name : String
  «alias» : Option String
  deriving Repr, DecidableEq

structure PersonMentionMatcher where
  personNames : List String
  personTokens : List (List String)
  tokenOwners : List (String × List Nat)
  tokenMetaByKey : List (String × PersonTokenMeta)
  orderedTokens : List String
  deriving Repr, DecidableEq

/-- Lookup in an insertion-ordered association list (JS `Map.get`). -/
def assocFind {α : Type} (l : List (String × α)) (k : String) : Option α :=
  (l.find? (fun e => e.1 = k)).map (fun e => e.2)

/-- The per-person token map: key = case-folded token; a name wins over an
alias with the same key; later duplicates are dropped. -/
def tokenMetaForPerson (p : PersonArchiveRow) : List (String × (String × Bool)) :=
  let rawTokens := (p.name, false) :: (splitAliases p.«alias»).map (fun t => (t, true))
  rawTokens.foldl (fun m tk =>
    let key := jsToLower tk.1
    match m.find? (fun e => e.1 = key) with
    | none => m ++ [(key, (tk.1, tk.2))]
    | some e =>
      if e.2.2 ∧ ¬ tk.2 then
        m.map (fun e2 => if e2.1 = key then (key, (tk.1, tk.2)) else e2)
      else m) []

/-- `owners.add(i)` on the `tokenOwners` map. -/
def addOwner (owners : List (String × List Nat)) (key : String) (i : Nat) :
    List (String × List Nat) :=
  match owners.find? (fun e => e.1 = key) with
  | none => owners ++ [(key, [i])]
  | some _ =>
    owners.map (fun e =>
      if e.1 = key then (e.1, if i ∈ e.2 then e.2 else e.2 ++ [i]) else e)

/-- First registration wins on the `tokenMetaByKey` map. -/
def addMeta (metas : List (String × PersonTokenMeta)) (key : String)
    (meta : PersonTokenMeta) : List (String × PersonTokenMeta) :=
  if metas.any (fun e => e.1 = key) then metas else metas ++ [(key, meta)]

/-- The comparator `(a, b) => b.length - a.length || a.localeCompare(b)`:
longest key first, ties in dictionary order. -/
def tokenBefore (a b : String) : Bool :=
  decide (b.length < a.length) || (a.length == b.length && decide (a ≤ b))

/-- `buildPersonMentionMatcher` (`diary.ts` lines 620-677). -/
def buildPersonMentionMatcher (personArchives : List PersonArchiveRow) :
    PersonMentionMatcher :=
  let r := personArchives.enum.foldl
    (fun (acc : List (List String) × List (String × List Nat) ×
          List (String × PersonTokenMeta)) ip =>
      let i := ip.1
      let metaList := tokenMetaForPerson ip.2
      let tokenList := metaList.map (fun e => e.2.1)
      let owners := metaList.foldl (fun ow e => addOwner ow e.1 i) acc.2.1
      let metas := metaList.foldl (fun ms e =>
        addMeta ms e.1
          { personIndex := i, isAlias := e.2.2, charLength := e.2.1.length }) acc.2.2
      (acc.1 ++ [tokenList], owners, metas))
    ([], [], [])
  { personNames := personArchives.map (fun p => p.name)
    personTokens := r.1
    tokenOwners := r.2.1
    tokenMetaByKey := r.2.2
    orderedTokens := jsSort tokenBefore (r.2.1.map (fun e => e.1)) }

/-- Case-insensitive match of a (lower-case) key at the head position. -/
def matchesKeyAt (key : String) (cs : List Char) : Bool :=
  key.data.length ≤ cs.length ∧
    (cs.take key.data.length).map Char.toLower = key.data

/-- Alternation: first key in order that matches at this position. -/
def tryTokensAt : List String → List Char → Option String
  | [], _ => none
  | t :: ts, cs => if matchesKeyAt t cs then some t else tryTokensAt ts cs

def findMatchesAux (tokens : List String) : Nat → List Char → Nat →
    List (Nat × String)
  | 0, _, _ => []
  | _ + 1, [], _ => []
  | fuel + 1, c :: rest, idx =>
    match tryTokensAt tokens (c :: rest) with
    | some key =>
      if key.data.length = 0 then findMatchesAux tokens fuel rest (idx + 1)
      else
        (idx, key) ::
          findMatchesAux tokens fuel ((c :: rest).drop key.data.length)
            (idx + key.data.length)
    | none => findMatchesAux tokens fuel rest (idx + 1)

/-- All matches of the compiled alternation over a text, with start indices,
in scanning order (`while ((match = mentionRegex.exec(text)) !== null)`). -/
def findMatches (tokens : List String) (text : List Char) : List (Nat × String) :=
  findMatchesAux tokens (text.length + 1) text 0

/-- `isWordLikeChar` (`diary.ts` lines 679-682): `/[\p{L}\p{N}]/u`, embedded
as ASCII letter-or-digit. -/
def isWordLikeChar (c : Option Char) : Bool :=
  match c with
  | none => false
  | some ch => ch.isAlpha ∨ ch.isDigit

/-- `isSingleCharAliasStandaloneMatch` (`diary.ts` lines 684-697): only
single-character alias matches are constrained; both neighbours must be
non-word-like. -/
def isSingleCharAliasStandaloneMatch (text : List Char) (start len : Nat)
    (tokenMeta : PersonTokenMeta) : Bool :=
  if ¬ (tokenMeta.isAlias ∧ tokenMeta.charLength = 1) then true
  else
    let prevChar := if start > 0 then text.get? (start - 1) else none
    let nextChar := text.get? (start + len)
    ¬ isWordLikeChar prevChar ∧ ¬ isWordLikeChar nextChar

/-- The filter applied to one regex match inside `countMentionsForPerson`
(owner-ambiguity check, owner check, meta check, boundary check). -/
def mentionMatchOk (text : List Char) (personIndex : Nat)
    (tokenOwners : List (String × List Nat))
    (tokenMetaByKey : List (String × PersonTokenMeta)) (m : Nat × String) : Bool :=
  match assocFind tokenOwners m.2 with
  | none => false
  | some owners =>
    (owners.length = 1 && personIndex ∈ owners) &&
      (match assocFind tokenMetaByKey m.2 with
       | none => false
       | some meta =>
         meta.personIndex = personIndex &&
           isSingleCharAliasStandaloneMatch text m.1 m.2.data.length meta)

/-- `countMentionsForPerson` (`diary.ts` lines 699-728). -/
def countMentionsForPerson (text : List Char) (personIndex : Nat)
    (mentionRegex : List String) (tokenOwners : List (String × List Nat))
    (tokenMetaByKey : List (String × PersonTokenMeta)) : Nat × List String :=
  (findMatches mentionRegex text).foldl
    (fun acc m =>
      if mentionMatchOk text personIndex tokenOwners tokenMetaByKey m then
        (acc.1 + 1, if m.2 ∈ acc.2 then acc.2 else acc.2 ++ [m.2])
      else acc)
    (0, [])

/-- The per-match owner resolution of the `getPersonMentionStats` loop
(`diary.ts` lines 778-793): `none` when the match is skipped, otherwise the
owner index that gets incremented. -/
def statsMatchOwner (tokenOwners : List (String × List Nat))
    (tokenMetaByKey : List (String × PersonTokenMeta)) (text : List Char)
    (m : Nat × String) : Option Nat :=
  match assocFind tokenOwners m.2 with
  | none => none
  | some owners =>
    if owners.length = 1 then
      match owners.head? with
      | none => none
      | some ownerIndex =>
        match assocFind tokenMetaByKey m.2 with
        | none => none
        | some meta =>
          if meta.personIndex = ownerIndex ∧
              isSingleCharAliasStandaloneMatch text m.1 m.2.data.length meta = true then
            some ownerIndex
          else none
    else none

/-- The whole-text pass of the stats loop: fold every match into the
`mentionCounts` array. -/
def statsApplyMatches (tokenOwners : List (String × List Nat))
    (tokenMetaByKey : List (String × PersonTokenMeta)) (text : List Char)
    (ms : List (Nat × String)) (counts : List Nat) : List Nat :=
  ms.foldl
    (fun cnts m =>
      match statsMatchOwner tokenOwners tokenMetaByKey text m with
      | some i => cnts.set i (cnts.getD i 0 + 1)
      | none => cnts)
    counts

/-- `getPersonMentionStats` (`diary.ts` lines 756-800) over the
`type = 'person'` archives and the stored plain contents. -/
def getPersonMentionStats (archives : List ArchiveRow) (plainContents : List String) :
    List (String × Nat) :=
  let personArchives := (archives.filter (fun a => a.type = "person")).map
    (fun a => { name := a.name, «alias» := a.«alias» : PersonArchiveRow })
  if personArchives = [] then []
  else
    let matcher := buildPersonMentionMatcher personArchives
    if matcher.orderedTokens = [] then []
    else
      let counts := plainContents.foldl
        (fun cnts t =>
          if t = "" then cnts
          else
            statsApplyMatches matcher.tokenOwners matcher.tokenMetaByKey t.data
              (findMatches matcher.orderedTokens t.data) cnts)
        (List.replicate personArchives.length 0)
      jsSort (fun a b => b.2 ≤ a.2)
        ((matcher.personNames.zip counts).filter (fun p => 0 < p.2))


/-! ## Backup/Restore Pipeline — `importAppData` (`dataTransfer.ts` lines 325-431)

The filesystem state relevant to an import is the set of the six
`IMPORT_DATA_ITEMS` (`diary.db`, `diary.db-wal`, `diary.db-shm`, `images`,
`thumbnails`, `attachments`) in the user-data directory and in the rollback
holding directory; contents are opaque values.  `fs.rename`, `fs.cp` and
`fs.rm` act pointwise per item, so the per-item loops of the source are
embedded as pointwise state updates plus the `movedItems` list.  The two
`reopenDatabase()` calls are the only failure points modelled; their
outcomes are supplied by an oracle. -/

inductive ImportItem where
  | db | wal | shm | images | thumbnails | attachments
  deriving Repr, DecidableEq

/-- `IMPORT_DATA_ITEMS`, in source order. -/
def importDataItems : List ImportItem :=
  [.db, .wal, .shm, .images, .thumbnails, .attachments]

theorem mem_importDataItems (i : ImportItem) : i ∈ importDataItems := by
  cases i <;> simp [importDataItems]

structure ImportFs where
  userData : ImportItem → Option Nat
  rollback : ImportItem → Option Nat

/-- `moveCurrentDataToRollback` (lines 221-236): rename every existing item
into the rollback directory and record it. -/
def moveCurrentDataToRollback (fs : ImportFs) : ImportFs × List ImportItem :=
  ({ userData := fun _ => none,
     rollback := fun i =>
       match fs.userData i with
       | some v => some v
       | none => fs.rollback i },
   importDataItems.filter (fun i => (fs.userData i).isSome))

/-- The copy loop (lines 378-380): `copyPathIfExists` from the backup root
for every item, overwriting. -/
def copyBackupData (backup : ImportItem → Option Nat) (fs : ImportFs) : ImportFs :=
  { fs with userData := fun i =>
      match backup i with
      | some v => some v
      | none => fs.userData i }

/-- `cleanupCurrentData` (lines 250-254): remove every item from the
user-data directory. -/
def cleanupCurrentData (fs : ImportFs) : ImportFs :=
  { fs with userData := fun _ => none }

/-- `restoreRollbackData` (lines 238-248): rename every recorded moved item
that still exists in the rollback directory back into place. -/
def restoreRollbackData (fs : ImportFs) (movedItems : List ImportItem) : ImportFs :=
  { userData := fun i =>
      if i ∈ movedItems then
        match fs.rollback i with
        | some v => some v
        | none => fs.userData i
      else fs.userData i,
    rollback := fun i =>
      if i ∈ movedItems ∧ (fs.rollback i).isSome then none else fs.rollback i }

/-- Outcomes of the (up to two) `reopenDatabase()` calls. -/
structure ReopenOracle where
  firstReopen : Except String Unit
  secondReopen : Except String Unit

structure DataTransferOutcome where
  success : Bool
  error : Option String
  deriving Repr, DecidableEq

/-- `importAppData` from the point where the backup root has been located
(lines 368-408): close the store, make the fresh rollback directory, move
the live data aside, copy the backup in, and reopen — restoring from the
rollback area when the reopen fails, with a composite error when even the
post-restore reopen fails. -/
def importAppDataAfterLocate (backup : ImportItem → Option Nat) (fs₀ : ImportFs)
    (oracle : ReopenOracle) : DataTransferOutcome × ImportFs :=
  let fs1 : ImportFs := { fs₀ with rollback := fun _ => none }
  let moved := moveCurrentDataToRollback fs1
  let fs3 := copyBackupData backup moved.1
  match oracle.firstReopen with
  | Except.ok _ =>
    ({ success := true, error := none }, { fs3 with rollback := fun _ => none })
  | Except.error reopenError =>
    let fs4 := cleanupCurrentData fs3
    let fs5 := restoreRollbackData fs4 moved.2
    match oracle.secondReopen with
    | Except.ok _ =>
      ({ success := false,
         error := some ("备份数据无效或不兼容：" ++ reopenError) },
       { fs5 with rollback := fun _ => none })
    | Except.error rollbackReopenError =>
      ({ success := false,
         error := some ("备份数据无效：" ++ reopenError ++
           "；回滚后数据库重连失败：" ++ rollbackReopenError) },
       fs5)

/-! ## Settings — the avatar key and image reference counting

`database/settings.ts` in its current form is not part of the sources at
hand: the copy present returns `void` from `setSetting`, while its caller
(`settings:set` in the main-process IPC layer) consumes a returned
released-image-id list (`const releasedIds = setSetting(key, value)`), as
does `migrateLegacyAvatarSetting`.  The ref-counting behaviour is therefore
modelled from the spec. -/

def SettingsStore : Type := String → Option String

/-- Modelled from the spec: `setSetting` with avatar ref-counting — the
current `database/settings.ts` is missing from the sources (the available
copy predates the image-reference counting and returns `void`, while its
caller binds the returned released-id list).  Per the spec, the store
"only treats one key specially — an avatar setting whose value may itself
be an image reference subject to the same ref-counting as diary/archive
image fields": writing the avatar key diffs the embedded image ids of the
old and new values through `syncImageRefs` and returns the released ids;
every other key is a plain upsert. -/
def setSetting (settings : SettingsStore) (key value : String) (now : Nat)
    (store : RefStore) : SettingsStore × RefStore × List String :=
  if key = "user.avatar" then
    let sync := syncImageRefs (collectImageIdsFromText (settings key))
      (collectImageIdsFromText (some value)) now store
    (fun k => if k = key then some value else settings k, sync.1, sync.2)
  else
    (fun k => if k = key then some value else settings k, store, [])

/-- Number of owning fields contributed by the avatar setting for one image
id (1 when the avatar value embeds the id, else 0). -/
def avatarContrib (avatar : Option String) (id : String) : Nat :=
  if id ∈ collectImageIdsFromText avatar then 1 else 0

/-- The ImageRef invariant at one image id, with all non-avatar owning
fields abstracted into `other` (their count is unchanged by `setSetting`):
the stored count equals the number of owning fields, and no stored row has
count 0. -/
def refInvariant (store : RefStore) (other : String → Nat)
    (avatar : Option String) : Prop :=
  ∀ id,
    (match store id with
     | some row => row.ref_count
     | none => 0) = other id + avatarContrib avatar id ∧
    (∀ row, store id = some row → 1 ≤ row.ref_count)


/-! ### Supporting lemmas -/

theorem dropWhile_idem {α : Type} (p : α → Bool) (l : List α) :
    (l.dropWhile p).dropWhile p = l.dropWhile p := by
  induction l with
  | nil => rfl
  | cons c cs ih =>
    by_cases hc : p c = true
    · simp [List.dropWhile_cons, hc, ih]
    · simp [List.dropWhile_cons, hc]

theorem dropWhile_eq_self_of_head {α : Type} (p : α → Bool) (l : List α)
    (h : (l.dropWhile p) = l) : l.dropWhile p = l := h

/-- A prefix of a list with no leading `p`-element also has no leading
`p`-element. -/
theorem dropWhile_eq_self_of_prefix {α : Type} (p : α → Bool) (l r : List α)
    (hpre : r <+: l) (hl : l.dropWhile p = l) : r.dropWhile p = r := by
  cases r with
  | nil => rfl
  | cons c cs =>
    cases l with
    | nil => simp at hpre
    | cons d ds =>
      have hcd : d = c := by
        rcases hpre with ⟨t, ht⟩
        simpa using congrArg List.head? ht.symm
      rw [hcd] at hl
      by_cases hc : p c = true
      · rw [List.dropWhile_cons, if_pos hc] at hl
        have hlen := congrArg List.length hl
        have hle := (List.dropWhile_sublist (l := ds) p).length_le
        simp at hlen
        omega
      · simp [List.dropWhile_cons, hc]

theorem jsTrimList_idem (cs : List Char) : jsTrimList (jsTrimList cs) = jsTrimList cs := by
  unfold jsTrimList
  set m := cs.dropWhile jsWhitespaceChar with hm
  set r := (m.reverse.dropWhile jsWhitespaceChar).reverse with hr
  have hnoLeadM : m.dropWhile jsWhitespaceChar = m := by
    rw [hm]; exact dropWhile_idem _ _
  have hprefix : r <+: m := by
    rw [hr]
    have hsuff : m.reverse.dropWhile jsWhitespaceChar <:+ m.reverse :=
      List.dropWhile_suffix _
    have := hsuff.reverse
    simpa using this
  have hnoLeadR : r.dropWhile jsWhitespaceChar = r :=
    dropWhile_eq_self_of_prefix _ m r hprefix hnoLeadM
  have hnoTrailR : r.reverse.dropWhile jsWhitespaceChar = r.reverse := by
    rw [hr]
    simp only [List.reverse_reverse]
    exact dropWhile_idem _ _
  rw [hnoLeadR, hnoTrailR, List.reverse_reverse]

theorem jsTrim_idem (s : String) : jsTrim (jsTrim s) = jsTrim s := by
  unfold jsTrim
  simp [jsTrimList_idem]

theorem mem_normalizeImageIdSet_iff (l : List String) (x : String) :
    x ∈ normalizeImageIdSet l ↔ (∃ y ∈ l, jsTrim y = x) ∧ x ≠ "" := by
  unfold normalizeImageIdSet
  rw [dedupKeepFirst_mem]
  simp only [List.mem_filter, List.mem_map, decide_eq_true_eq]

theorem mem_normalizeImageIdSet_trimmed (l : List String) (x : String)
    (h : x ∈ normalizeImageIdSet l) : jsTrim x = x ∧ x ≠ "" := by
  rcases (mem_normalizeImageIdSet_iff l x).mp h with ⟨⟨y, _, rfl⟩, hne⟩
  exact ⟨jsTrim_idem y, hne⟩

/-- Normalization is idempotent on membership: normalizing an
already-normalized list does not change which ids are present. -/
theorem mem_normalize_of_normalized (l : List String) (x : String) :
    x ∈ normalizeImageIdSet (normalizeImageIdSet l) ↔ x ∈ normalizeImageIdSet l := by
  rw [mem_normalizeImageIdSet_iff]
  constructor
  · rintro ⟨⟨y, hy, rfl⟩, _⟩
    rw [(mem_normalizeImageIdSet_trimmed l y hy).1]
    exact hy
  · intro hx
    exact ⟨⟨x, hx, (mem_normalizeImageIdSet_trimmed l x hx).1⟩,
      (mem_normalizeImageIdSet_trimmed l x hx).2⟩

theorem syncTagsStep_entries (db : DB) (diaryId tag : String) :
    (syncTagsStep db diaryId tag).entries = db.entries := by
  unfold syncTagsStep
  by_cases h : db.tags.any (fun t => t.name = tag)
  · simp only [if_pos h]
    cases hf : db.tags.find? (fun t => t.name = tag) with
    | none => rfl
    | some t => by_cases hmem : (diaryId, t.id) ∈ db.diary_tags <;> simp [hmem]
  · simp only [if_neg h]
    cases hf : (db.tags ++ [{ id := db.nextTagId, name := tag : TagRow }]).find?
        (fun t => t.name = tag) with
    | none => rfl
    | some t =>
      by_cases hmem : (diaryId, t.id) ∈ db.diary_tags <;> simp [hmem]

theorem syncTagsFold_entries (tags : List String) (db : DB) (diaryId : String) :
    (tags.foldl (fun dbAcc tag => syncTagsStep dbAcc diaryId tag) db).entries =
      db.entries := by
  induction tags generalizing db with
  | nil => rfl
  | cons t ts ih => rw [List.foldl_cons, ih, syncTagsStep_entries]

theorem syncTags_entries (db : DB) (diaryId : String) (tags : List String) :
    (syncTags db diaryId tags).entries = db.entries := by
  unfold syncTags
  by_cases h : tags = []
  · simp [h]
  · simp only [if_neg h]
    rw [syncTagsFold_entries]


/-! ## Claim theorems -/

/-- A concrete `image_refs` table used by witnesses: `aa ↦ 1`, `bb ↦ 2`. -/
def store0 : RefStore :=
  fun id =>
    if id = "aa" then some { ref_count := 1, updated_at := 0 }
    else if id = "bb" then some { ref_count := 2, updated_at := 0 }
    else none

/-- C1: `syncImageRefs(old, new)` upserts every added id with `ref_count` 1
or increments the existing count; decrements every removed id with a floor
at 0; deletes exactly those removed ids whose count reaches 0 (a missing
row counts as 0) and returns exactly those as released, in that order; and
when both diffs are empty it returns `[]` and leaves the store unchanged. -/
theorem claim_C1_syncImageRefs (oldIds newIds : List String) (now : Nat)
    (store : RefStore) (id : String) :
    (id ∈ normalizeImageIdSet newIds → id ∉ normalizeImageIdSet oldIds →
      (syncImageRefs oldIds newIds now store).1 id =
        some { ref_count := (match store id with
                             | some row => row.ref_count + 1
                             | none => 1),
               updated_at := now }) ∧
    (id ∈ normalizeImageIdSet oldIds → id ∉ normalizeImageIdSet newIds →
      (match store id with
       | none =>
         (syncImageRefs oldIds newIds now store).1 id = none ∧
           id ∈ (syncImageRefs oldIds newIds now store).2
       | some row =>
         if row.ref_count ≤ 1 then
           (syncImageRefs oldIds newIds now store).1 id = none ∧
             id ∈ (syncImageRefs oldIds newIds now store).2
         else
           (syncImageRefs oldIds newIds now store).1 id =
               some { ref_count := row.ref_count - 1, updated_at := now } ∧
             id ∉ (syncImageRefs oldIds newIds now store).2)) ∧
    (id ∈ (syncImageRefs oldIds newIds now store).2 ↔
      id ∈ normalizeImageIdSet oldIds ∧ id ∉ normalizeImageIdSet newIds ∧
        (match store id with
         | none => True
         | some row => row.ref_count ≤ 1)) ∧
    ((normalizeImageIdSet newIds).filter
          (fun i => i ∉ normalizeImageIdSet oldIds) = [] →
      (normalizeImageIdSet oldIds).filter
          (fun i => i ∉ normalizeImageIdSet newIds) = [] →
      syncImageRefs oldIds newIds now store = (store, [])) := by
  obtain ⟨h1, h2, h3, h4⟩ := syncImageRefs_spec oldIds newIds now store id
  refine ⟨h1, ?_, ?_, ?_⟩
  · intro hold hnew
    cases hst : store id with
    | none => exact (h2 hold hnew).1 (Or.inl hst)
    | some row =>
      dsimp only
      by_cases hle : row.ref_count ≤ 1
      · rw [if_pos hle]
        exact (h2 hold hnew).1 (Or.inr ⟨row, hst, hle⟩)
      · rw [if_neg hle]
        exact (h2 hold hnew).2 row hst (by omega)
  · constructor
    · intro hmem
      obtain ⟨hold, hnew⟩ := h4 hmem
      refine ⟨hold, hnew, ?_⟩
      cases hst : store id with
      | none => exact True.intro
      | some row =>
        dsimp only
        by_contra hgt
        have hge : 2 ≤ row.ref_count := by omega
        exact ((h2 hold hnew).2 row hst hge).2 hmem
    · rintro ⟨hold, hnew, hcond⟩
      cases hst : store id with
      | none => exact ((h2 hold hnew).1 (Or.inl hst)).2
      | some row =>
        simp only [hst] at hcond
        exact ((h2 hold hnew).1 (Or.inr ⟨row, hst, hcond⟩)).2
  · intro ha hr
    exact syncImageRefs_noop oldIds newIds now store ⟨ha, hr⟩

/-- Witness for C1 at `old = [aa, bb]`, `new = [bb, cc]` over `store0`:
`cc` is inserted with count 1, and `aa` (count 1) is decremented to 0,
deleted and released. -/
theorem claim_C1_witness :
    ("cc" ∈ normalizeImageIdSet ["bb", "cc"] ∧
      "cc" ∉ normalizeImageIdSet ["aa", "bb"]) ∧
    (syncImageRefs ["aa", "bb"] ["bb", "cc"] 7 store0).1 "cc" =
      some { ref_count := 1, updated_at := 7 } ∧
    (syncImageRefs ["aa", "bb"] ["bb", "cc"] 7 store0).1 "aa" = none ∧
    "aa" ∈ (syncImageRefs ["aa", "bb"] ["bb", "cc"] 7 store0).2 := by
  have hcc :=
    (claim_C1_syncImageRefs ["aa", "bb"] ["bb", "cc"] 7 store0 "cc").1
      (by decide) (by decide)
  have haa :=
    (claim_C1_syncImageRefs ["aa", "bb"] ["bb", "cc"] 7 store0 "aa").2.1
      (by decide) (by decide)
  refine ⟨⟨by decide, by decide⟩, ?_, ?_, ?_⟩
  · simpa [store0] using hcc
  · simpa [store0] using haa.1
  · simpa [store0] using haa.2

/-- C10: `syncImageRefs` preserves the no-zero-rows invariant — when no
stored row has `ref_count` 0 before the call (the reachable states: upserts
write counts ≥ 1 and the version-7 backfill only inserts positive counts,
with the schema `CHECK (ref_count >= 0)` behind it), then after the call
every remaining row still has `ref_count ≥ 1`: a decrement that reaches 0,
or that finds no row, deletes the row inside the same transaction. -/
theorem claim_C10_no_zero_rows (oldIds newIds : List String) (now : Nat)
    (store : RefStore)
    (hinv : ∀ id row, store id = some row → 1 ≤ row.ref_count) :
    ∀ id row, (syncImageRefs oldIds newIds now store).1 id = some row →
      1 ≤ row.ref_count := by
  intro id row hrow
  obtain ⟨h1, h2, h3, h4⟩ := syncImageRefs_spec oldIds newIds now store id
  by_cases hnew : id ∈ normalizeImageIdSet newIds <;>
    by_cases hold : id ∈ normalizeImageIdSet oldIds
  · rw [h3 (by constructor <;> intro <;> assumption)] at hrow
    exact hinv id row hrow
  · have heq := h1 hnew hold
    rw [hrow] at heq
    have hr := Option.some.inj heq
    rw [hr]
    cases hst : store id with
    | none => simp
    | some row0 => simp
  · cases hst : store id with
    | none =>
      rw [((h2 hold hnew).1 (Or.inl hst)).1] at hrow
      cases hrow
    | some row0 =>
      by_cases hle : row0.ref_count ≤ 1
      · rw [((h2 hold hnew).1 (Or.inr ⟨row0, hst, hle⟩)).1] at hrow
        cases hrow
      · have hlive := (h2 hold hnew).2 row0 hst (by omega)
        have heq := hlive.1
        rw [hrow] at heq
        have hr := Option.some.inj heq
        rw [hr]
        simp only []
        omega
  · rw [h3 (by constructor <;> intro h <;> [exact absurd h hold; exact absurd h hnew])]
      at hrow
    exact hinv id row hrow

/-- Witness for C10: over `store0` (all counts ≥ 1), after removing `aa`
the untouched row `bb` still has a positive count. -/
theorem claim_C10_witness : 1 ≤ (ImageRefRow.mk 2 0).ref_count :=
  claim_C10_no_zero_rows ["aa"] [] 3 store0
    (by
      intro id row hrow
      unfold store0 at hrow
      split at hrow
      · injection hrow with h
        rw [← h]
      · split at hrow
        · injection hrow with h
          rw [← h]
          decide
        · cases hrow)
    "bb" (ImageRefRow.mk 2 0) (by decide)

/-- C2: immediately after every save, the persisted row holds the sanitized
content and its plain-text mirror: `content = sanitizeDiaryHtml(input)` and
`plain_content = stripHtmlToPlain(sanitizeDiaryHtml(input))`, on both the
update path and the insert path.  (`freshId` models `randomUUID()`; the
hypothesis states its freshness.) -/
theorem claim_C2_plain_mirror (db : DB) (e : DiaryEntryInput) (now : Int)
    (freshId : String) (hfresh : ∀ r ∈ db.entries, r.id ≠ freshId) :
    ∀ row ∈ (saveDiaryEntry db e now freshId).1.entries,
      row.id = (saveDiaryEntry db e now freshId).2 →
        row.content = sanitizeDiaryHtml e.content ∧
          row.plain_content = stripHtmlToPlain (sanitizeDiaryHtml e.content) := by
  intro row hmem hid
  simp only [saveDiaryEntry] at hmem hid
  by_cases hcond : (hasTruthyId e = true ∧
      db.entries.any (fun r => r.id = e.id.getD "") = true)
  · rw [if_pos hcond] at hmem hid
    rw [syncTags_entries] at hmem
    simp only [] at hmem
    rcases List.mem_map.mp hmem with ⟨pre, hpre, heq⟩
    by_cases hp : pre.id = e.id.getD ""
    · rw [if_pos hp] at heq
      rw [← heq]
      exact ⟨rfl, rfl⟩
    · rw [if_neg hp] at heq
      rw [← heq] at hid
      exact absurd hid hp
  · rw [if_neg hcond] at hmem hid
    rw [syncTags_entries] at hmem
    simp only [] at hmem
    rcases List.mem_append.mp hmem with hold | hnewrow
    · exfalso
      by_cases ht : hasTruthyId e = true
      · have hany : db.entries.any (fun r => r.id = e.id.getD "") ≠ true := by
          intro hh
          exact hcond ⟨ht, hh⟩
        rw [if_pos ht] at hid
        apply hany
        rw [List.any_eq_true]
        exact ⟨row, hold, by simpa using hid⟩
      · rw [if_neg ht] at hid
        exact hfresh row hold hid
    · simp only [List.mem_singleton] at hnewrow
      rw [hnewrow]
      exact ⟨rfl, rfl⟩

/-- An empty database (used by witnesses). -/
def emptyDB : DB :=
  { entries := [], tags := [], diary_tags := [], archives := [], nextTagId := 1 }

/-- A concrete entry input used by the C2 witness. -/
def entryInput0 : DiaryEntryInput :=
  { id := none, title := "day one",
    content := "<p onclick=\x22alert(1)\x22>Hello<br/>world</p>",
    mood := "calm", tags := some ["life"], weather := none, createdAt := none }

/-- Witness for C2: saving `entryInput0` into the empty database persists the
sanitized content and its plain-text mirror. -/
theorem claim_C2_witness :
    (∀ r ∈ emptyDB.entries, r.id ≠ "uuid-1") ∧
    ({ id := "uuid-1", title := "day one",
       content := "<p>Hello<br/>world</p>",
       plain_content := "Hello\nworld", mood := "calm", weather := none,
       created_at := 0, updated_at := 0 : DiaryRow }.content =
        sanitizeDiaryHtml entryInput0.content ∧
      ({ id := "uuid-1", title := "day one",
         content := "<p>Hello<br/>world</p>",
         plain_content := "Hello\nworld", mood := "calm", weather := none,
         created_at := 0, updated_at := 0 : DiaryRow }.plain_content =
        stripHtmlToPlain (sanitizeDiaryHtml entryInput0.content))) :=
  ⟨by simp [emptyDB],
   claim_C2_plain_mirror emptyDB entryInput0 0 "uuid-1" (by simp [emptyDB])
     { id := "uuid-1", title := "day one",
       content := "<p>Hello<br/>world</p>",
       plain_content := "Hello\nworld", mood := "calm", weather := none,
       created_at := 0, updated_at := 0 }
     (by decide) (by decide)⟩

/-- The counting fold of `countMentionsForPerson` counts exactly the
surviving matches. -/
theorem mentionFold_count (text : List Char) (p : Nat)
    (owners : List (String × List Nat)) (metas : List (String × PersonTokenMeta))
    (ms : List (Nat × String)) (n : Nat) (ks : List String) :
    (ms.foldl
      (fun acc m =>
        if mentionMatchOk text p owners metas m then
          (acc.1 + 1, if m.2 ∈ acc.2 then acc.2 else acc.2 ++ [m.2])
        else acc)
      (n, ks)).1 = n + ms.countP (mentionMatchOk text p owners metas) := by
  induction ms generalizing n ks with
  | nil => simp
  | cons m ms ih =>
    rw [List.foldl_cons, List.countP_cons]
    by_cases hok : mentionMatchOk text p owners metas m = true
    · rw [if_pos hok]
      rw [ih]
      simp [hok]
      omega
    · rw [if_neg hok]
      rw [ih]
      simp [hok]

theorem countMentions_eq_countP (text : List Char) (p : Nat)
    (regex : List String) (owners : List (String × List Nat))
    (metas : List (String × PersonTokenMeta)) :
    (countMentionsForPerson text p regex owners metas).1 =
      (findMatches regex text).countP (mentionMatchOk text p owners metas) := by
  unfold countMentionsForPerson
  rw [mentionFold_count]
  simp

/-- Matches whose owner resolution is `none` can be dropped from the stats
fold without changing the counts. -/
theorem statsApplyMatches_drop_none (owners : List (String × List Nat))
    (metas : List (String × PersonTokenMeta)) (text : List Char) (k : String)
    (ms : List (Nat × String)) (counts : List Nat)
    (hnone : ∀ m ∈ ms, m.2 = k → statsMatchOwner owners metas text m = none) :
    statsApplyMatches owners metas text ms counts =
      statsApplyMatches owners metas text (ms.filter (fun m => m.2 ≠ k)) counts := by
  induction ms generalizing counts with
  | nil => rfl
  | cons m ms ih =>
    by_cases hk : m.2 = k
    · have hmn := hnone m (by simp) hk
      unfold statsApplyMatches
      rw [List.foldl_cons, hmn]
      have hfilter : (m :: ms).filter (fun m => m.2 ≠ k) =
          ms.filter (fun m => m.2 ≠ k) := by
        simp [List.filter_cons, hk]
      rw [hfilter]
      exact ih counts (fun x hx hxk => hnone x (by simp [hx]) hxk)
    · unfold statsApplyMatches
      have hfilter : (m :: ms).filter (fun m => m.2 ≠ k) =
          m :: ms.filter (fun m => m.2 ≠ k) := by
        simp [List.filter_cons, hk]
      rw [hfilter, List.foldl_cons, List.foldl_cons]
      cases hso : statsMatchOwner owners metas text m with
      | none => exact ih _ (fun x hx hxk => hnone x (by simp [hx]) hxk)
      | some i => exact ih _ (fun x hx hxk => hnone x (by simp [hx]) hxk)

/-- C3: a token key owned by two or more person archives is never
attributed: each of its matches is rejected by `countMentionsForPerson`
(used by `getPersonMentionDetails`) and is skipped by the
`getPersonMentionStats` loop, so its matches can be removed from the match
stream without changing any person's mention count. -/
theorem claim_C3_ambiguous_token (personArchives : List PersonArchiveRow)
    (k : String) (owners : List Nat)
    (howners :
      assocFind (buildPersonMentionMatcher personArchives).tokenOwners k =
        some owners)
    (hambig : 2 ≤ owners.length) :
    (∀ (text : List Char) (start p : Nat),
      mentionMatchOk text p (buildPersonMentionMatcher personArchives).tokenOwners
        (buildPersonMentionMatcher personArchives).tokenMetaByKey (start, k) =
          false) ∧
    (∀ (text : List Char) (start : Nat),
      statsMatchOwner (buildPersonMentionMatcher personArchives).tokenOwners
        (buildPersonMentionMatcher personArchives).tokenMetaByKey text (start, k) =
          none) ∧
    (∀ (text : List Char) (p : Nat),
      (countMentionsForPerson text p
          (buildPersonMentionMatcher personArchives).orderedTokens
          (buildPersonMentionMatcher personArchives).tokenOwners
          (buildPersonMentionMatcher personArchives).tokenMetaByKey).1 =
        ((findMatches (buildPersonMentionMatcher personArchives).orderedTokens
            text).filter (fun m => m.2 ≠ k)).countP
          (mentionMatchOk text p
            (buildPersonMentionMatcher personArchives).tokenOwners
            (buildPersonMentionMatcher personArchives).tokenMetaByKey)) ∧
    (∀ (text : List Char) (counts : List Nat),
      statsApplyMatches (buildPersonMentionMatcher personArchives).tokenOwners
          (buildPersonMentionMatcher personArchives).tokenMetaByKey text
          (findMatches (buildPersonMentionMatcher personArchives).orderedTokens
            text) counts =
        statsApplyMatches (buildPersonMentionMatcher personArchives).tokenOwners
          (buildPersonMentionMatcher personArchives).tokenMetaByKey text
          ((findMatches (buildPersonMentionMatcher personArchives).orderedTokens
              text).filter (fun m => m.2 ≠ k)) counts) := by
  have hlen : owners.length ≠ 1 := by omega
  have hok : ∀ (text : List Char) (start p : Nat),
      mentionMatchOk text p (buildPersonMentionMatcher personArchives).tokenOwners
        (buildPersonMentionMatcher personArchives).tokenMetaByKey (start, k) =
          false := by
    intro text start p
    unfold mentionMatchOk
    rw [howners]
    simp [hlen]
  have hsn : ∀ (text : List Char) (start : Nat),
      statsMatchOwner (buildPersonMentionMatcher personArchives).tokenOwners
        (buildPersonMentionMatcher personArchives).tokenMetaByKey text (start, k) =
          none := by
    intro text start
    unfold statsMatchOwner
    rw [howners]
    simp [hlen]
  refine ⟨hok, hsn, ?_, ?_⟩
  · intro text p
    rw [countMentions_eq_countP, List.countP_filter]
    apply List.countP_congr
    intro m _
    by_cases hk : m.2 = k
    · have : m = (m.1, k) := by
        cases m; simp_all
      rw [this]
      simp [hok text m.1 p]
    · simp [hk]
  · intro text counts
    apply statsApplyMatches_drop_none
    intro m _ hk
    have : m = (m.1, k) := by
      cases m; simp_all
    rw [this]
    exact hsn text m.1

/-- Two person archives sharing the alias token `Bo` (used by the C3
witness). -/
def personsShared : List PersonArchiveRow :=
  [{ name := "Bob", «alias» := some "Bo" }, { name := "Alice", «alias» := some "Bo" }]

/-- Witness for C3: with `Bob` and `Alice` both owning alias key `bo`, the
matches of `bo` can be dropped without changing Bob's count. -/
theorem claim_C3_witness :
    (assocFind (buildPersonMentionMatcher personsShared).tokenOwners "bo" =
        some [0, 1] ∧ 2 ≤ ([0, 1] : List Nat).length) ∧
    (countMentionsForPerson "Bo met Bob".data 0
        (buildPersonMentionMatcher personsShared).orderedTokens
        (buildPersonMentionMatcher personsShared).tokenOwners
        (buildPersonMentionMatcher personsShared).tokenMetaByKey).1 =
      ((findMatches (buildPersonMentionMatcher personsShared).orderedTokens
          "Bo met Bob".data).filter (fun m => m.2 ≠ "bo")).countP
        (mentionMatchOk "Bo met Bob".data 0
          (buildPersonMentionMatcher personsShared).tokenOwners
          (buildPersonMentionMatcher personsShared).tokenMetaByKey) :=
  ⟨⟨by decide, by decide⟩,
   (claim_C3_ambiguous_token personsShared "bo" [0, 1] (by decide)
       (by decide)).2.2.1 "Bo met Bob".data 0⟩

/-- The single-person matcher `Ann` with one-character alias `A` (used by
the C4 theorem and witness). -/
def annMatcher : PersonMentionMatcher :=
  buildPersonMentionMatcher [{ name := "Ann", «alias» := some "A" }]

/-- C4: a single-character alias match is standalone (counted) exactly when
neither neighbouring character is a letter or digit; concretely, for the
archive `Ann` with alias `A`, the match inside `XAY` contributes no mention
while the space-surrounded match in `" A "` counts once. -/
theorem claim_C4_single_char_boundary :
    (∀ (text : List Char) (start len : Nat) (meta : PersonTokenMeta),
      meta.isAlias = true → meta.charLength = 1 →
      (isSingleCharAliasStandaloneMatch text start len meta = true ↔
        isWordLikeChar (if start > 0 then text.get? (start - 1) else none) =
            false ∧
          isWordLikeChar (text.get? (start + len)) = false)) ∧
    (countMentionsForPerson "XAY".data 0 annMatcher.orderedTokens
        annMatcher.tokenOwners annMatcher.tokenMetaByKey).1 = 0 ∧
    (countMentionsForPerson " A ".data 0 annMatcher.orderedTokens
        annMatcher.tokenOwners annMatcher.tokenMetaByKey).1 = 1 := by
  refine ⟨?_, by decide, by decide⟩
  intro text start len meta halias hlen
  unfold isSingleCharAliasStandaloneMatch
  rw [if_neg (by simp [halias, hlen])]
  constructor
  · intro h
    simpa using h
  · intro h
    simpa using h

/-- Witness for C4 at the alias metadata of `A` and the `XAY` text. -/
theorem claim_C4_witness :
    ((PersonTokenMeta.mk 0 true 1).isAlias = true ∧
      (PersonTokenMeta.mk 0 true 1).charLength = 1) ∧
    (isSingleCharAliasStandaloneMatch "XAY".data 1 1
        (PersonTokenMeta.mk 0 true 1) = true ↔
      isWordLikeChar (if 1 > 0 then "XAY".data.get? 0 else none) = false ∧
        isWordLikeChar ("XAY".data.get? 2) = false) :=
  ⟨⟨rfl, rfl⟩,
   claim_C4_single_char_boundary.1 "XAY".data 1 1 (PersonTokenMeta.mk 0 true 1)
     rfl rfl⟩

/-- C5: when the reopen after an import fails, the partially-copied data is
removed and every pre-import item is moved back intact, whatever the backup
contained; the returned error names the reopen failure, and when the
post-restore reopen also fails it is the composite message naming both
failures. -/
theorem claim_C5_import_rollback (backup : ImportItem → Option Nat)
    (fs : ImportFs) (oracle : ReopenOracle) (e1 : String)
    (h1 : oracle.firstReopen = Except.error e1) :
    (importAppDataAfterLocate backup fs oracle).1.success = false ∧
    (∀ i, (importAppDataAfterLocate backup fs oracle).2.userData i =
      fs.userData i) ∧
    (oracle.secondReopen = Except.ok () →
      (importAppDataAfterLocate backup fs oracle).1.error =
        some ("备份数据无效或不兼容：" ++ e1)) ∧
    (∀ e2, oracle.secondReopen = Except.error e2 →
      (importAppDataAfterLocate backup fs oracle).1.error =
        some ("备份数据无效：" ++ e1 ++ "；回滚后数据库重连失败：" ++ e2)) := by
  have hstate : ∀ i,
      (restoreRollbackData
        (cleanupCurrentData
          (copyBackupData backup
            (moveCurrentDataToRollback { fs with rollback := fun _ => none }).1))
        (moveCurrentDataToRollback { fs with rollback := fun _ => none }).2).userData
        i = fs.userData i := by
    intro i
    cases hu : fs.userData i with
    | some v =>
      have hmem : i ∈ (moveCurrentDataToRollback
          { fs with rollback := fun _ => none }).2 := by
        unfold moveCurrentDataToRollback
        exact List.mem_filter.mpr ⟨mem_importDataItems i, by simp [hu]⟩
      simp [restoreRollbackData, cleanupCurrentData, copyBackupData,
        moveCurrentDataToRollback, hmem, hu, mem_importDataItems i]
    | none =>
      have hmem : i ∉ (moveCurrentDataToRollback
          { fs with rollback := fun _ => none }).2 := by
        unfold moveCurrentDataToRollback
        intro hin
        have := List.mem_filter.mp hin
        rw [hu] at this
        simp at this
      simp [restoreRollbackData, cleanupCurrentData, copyBackupData,
        moveCurrentDataToRollback, hmem, hu, mem_importDataItems i]
  unfold importAppDataAfterLocate
  rw [h1]
  cases hsec : oracle.secondReopen with
  | ok u =>
    refine ⟨rfl, hstate, fun _ => rfl, ?_⟩
    intro e2 he2
    simp at he2
  | error e2 =>
    refine ⟨rfl, hstate, ?_, ?_⟩
    · intro hok
      simp at hok
    · intro e2' he2
      cases he2
      rfl

/-- A concrete pre-import state (only `diary.db` and `images` exist) and a
backup and oracle for the C5 witness: the import's reopen fails, the
post-restore reopen succeeds. -/
def fsC5 : ImportFs :=
  { userData := fun i =>
      match i with
      | ImportItem.db => some 1
      | ImportItem.images => some 2
      | _ => none,
    rollback := fun _ => none }

def backupC5 : ImportItem → Option Nat :=
  fun i => match i with
           | ImportItem.db => some 9
           | _ => none

def oracleC5 : ReopenOracle :=
  { firstReopen := Except.error "corrupt backup", secondReopen := Except.ok () }

/-- Witness for C5: the failed import leaves `diary.db` exactly as before and
reports the reopen failure. -/
theorem claim_C5_witness :
    oracleC5.firstReopen = Except.error "corrupt backup" ∧
    (importAppDataAfterLocate backupC5 fsC5 oracleC5).1.success = false ∧
    (importAppDataAfterLocate backupC5 fsC5 oracleC5).2.userData ImportItem.db =
      fsC5.userData ImportItem.db ∧
    (importAppDataAfterLocate backupC5 fsC5 oracleC5).1.error =
      some ("备份数据无效或不兼容：" ++ "corrupt backup") :=
  ⟨rfl,
   (claim_C5_import_rollback backupC5 fsC5 oracleC5 "corrupt backup" rfl).1,
   (claim_C5_import_rollback backupC5 fsC5 oracleC5 "corrupt backup" rfl).2.1
     ImportItem.db,
   (claim_C5_import_rollback backupC5 fsC5 oracleC5 "corrupt backup" rfl).2.2.1
     rfl⟩

/-- C6 counterexample: `extractImageIds` does NOT deduplicate — a text
embedding the same image twice yields the id twice, so "no ID appears more
than once in the result" fails at this input. -/
theorem claim_C6_counterexample :
    extractImageIds "diary-image://ab.png diary-image://ab.png" = ["ab", "ab"] ∧
    ¬ (extractImageIds "diary-image://ab.png diary-image://ab.png").Nodup := by
  constructor
  · decide
  · decide

/-- C6 amended: `extractImageIds` is pure and total, a thumbnail reference
yields the same id as the original, a malformed reference is not extracted,
but the result lists one entry per occurrence (duplicates included);
deduplication happens in the callers `collectImageIdsFromText` /
`collectImageIdsFromTexts`, whose results never repeat an id. -/
theorem claim_C6_amended :
    extractImageIds "diary-image://0a1b.png" = ["0a1b"] ∧
    extractImageIds "diary-image://0a1b_thumb.webp" = ["0a1b"] ∧
    extractImageIds "diary-image://xyz.png" = [] ∧
    extractImageIds "diary-image://ab.png diary-image://ab.png" = ["ab", "ab"] ∧
    collectImageIdsFromText (some "diary-image://ab.png diary-image://ab.png") =
      ["ab"] ∧
    (∀ t : Option String, (collectImageIdsFromText t).Nodup) ∧
    (∀ ts : List (Option String), (collectImageIdsFromTexts ts).Nodup) := by
  refine ⟨by decide, by decide, by decide, by decide, by decide, ?_, ?_⟩
  · intro t
    cases t with
    | none => simp [collectImageIdsFromText]
    | some c =>
      by_cases hc : c = ""
      · simp [collectImageIdsFromText, hc]
      · simp only [collectImageIdsFromText, if_neg hc]
        exact normalizeImageIdSet_nodup _
  · intro ts
    exact dedupKeepFirst_nodup _

/-- Membership in the normalization of an already-normalized id list (the
output of `collectImageIdsFromText`) is unchanged. -/
theorem mem_normalize_collect (c : Option String) (id : String) :
    id ∈ normalizeImageIdSet (collectImageIdsFromText c) ↔
      id ∈ collectImageIdsFromText c := by
  cases c with
  | none => simp [collectImageIdsFromText, normalizeImageIdSet, dedupKeepFirst]
  | some s =>
    by_cases hs : s = ""
    · simp [collectImageIdsFromText, hs, normalizeImageIdSet, dedupKeepFirst]
    · simp only [collectImageIdsFromText, if_neg hs]
      exact mem_normalize_of_normalized _ id

/-- C7: writing the avatar settings key keeps the ImageRef invariant — with
all non-avatar owning fields abstracted as `other` (unchanged during the
call), if every stored count equalled its owning-field count before the
write, it does after, with the new avatar value as the avatar field; the
setting itself is stored, and the released ids are exactly those embedded
only in the old avatar value and owned by no other field. -/
theorem claim_C7_avatar_refcount (settings : SettingsStore) (store : RefStore)
    (other : String → Nat) (value : String) (now : Nat)
    (hinv : refInvariant store other (settings "user.avatar")) :
    refInvariant (setSetting settings "user.avatar" value now store).2.1 other
        (some value) ∧
    (setSetting settings "user.avatar" value now store).1 "user.avatar" =
      some value ∧
    (∀ id, id ∈ (setSetting settings "user.avatar" value now store).2.2 ↔
      id ∈ collectImageIdsFromText (settings "user.avatar") ∧
        id ∉ collectImageIdsFromText (some value) ∧ other id = 0) := by
  have hmemOld : ∀ id : String,
      id ∈ normalizeImageIdSet (collectImageIdsFromText (settings "user.avatar")) ↔
        id ∈ collectImageIdsFromText (settings "user.avatar") :=
    fun id => mem_normalize_collect (settings "user.avatar") id
  have hmemNew : ∀ id : String,
      id ∈ normalizeImageIdSet (collectImageIdsFromText (some value)) ↔
        id ∈ collectImageIdsFromText (some value) :=
    fun id => mem_normalize_collect (some value) id
  have hset : (setSetting settings "user.avatar" value now store).2.1 =
      (syncImageRefs (collectImageIdsFromText (settings "user.avatar"))
        (collectImageIdsFromText (some value)) now store).1 := by
    simp [setSetting]
  have hrel : (setSetting settings "user.avatar" value now store).2.2 =
      (syncImageRefs (collectImageIdsFromText (settings "user.avatar"))
        (collectImageIdsFromText (some value)) now store).2 := by
    simp [setSetting]
  refine ⟨?_, by simp [setSetting], ?_⟩
  · intro id
    rw [hset]
    obtain ⟨h1, h2, h3, h4⟩ :=
      syncImageRefs_spec (collectImageIdsFromText (settings "user.avatar"))
        (collectImageIdsFromText (some value)) now store id
    obtain ⟨hcount, hpos⟩ := hinv id
    by_cases hN : id ∈ collectImageIdsFromText (some value) <;>
      by_cases hO : id ∈ collectImageIdsFromText (settings "user.avatar")
    · rw [h3 (by rw [hmemOld, hmemNew]; exact iff_of_true hO hN)]
      refine ⟨?_, hpos⟩
      rw [hcount]
      simp [avatarContrib, hN, hO]
    · -- added: only in the new avatar value
      simp [avatarContrib, hO] at hcount
      rw [h1 ((hmemNew id).mpr hN) (fun h => hO ((hmemOld id).mp h))]
      constructor
      · cases hst : store id with
        | none =>
          simp only [hst] at hcount ⊢
          simp [avatarContrib, hN]
          omega
        | some row =>
          simp only [hst] at hcount ⊢
          simp [avatarContrib, hN]
          omega
      · intro r hr
        injection hr with hr2
        rw [← hr2]
        cases hst : store id <;> simp
    · -- removed: only in the old avatar value
      simp [avatarContrib, hO] at hcount
      cases hst : store id with
      | none =>
        simp only [hst] at hcount
        omega
      | some row =>
        simp only [hst] at hcount
        by_cases hz : other id = 0
        · have hle : row.ref_count ≤ 1 := by omega
          have hdead := (h2 ((hmemOld id).mpr hO)
            (fun h => hN ((hmemNew id).mp h))).1 (Or.inr ⟨row, hst, hle⟩)
          rw [hdead.1]
          refine ⟨?_, by intro r hr; cases hr⟩
          simp [avatarContrib, hN, hz]
        · have hge : 2 ≤ row.ref_count := by omega
          have hlive := (h2 ((hmemOld id).mpr hO)
            (fun h => hN ((hmemNew id).mp h))).2 row hst hge
          rw [hlive.1]
          constructor
          · have hc2 : row.ref_count = other id + 1 := hcount
            simp [avatarContrib, hN]
            rw [hc2]
            simp
          · intro r hr
            injection hr with hr2
            rw [← hr2]
            simp
            omega
    · rw [h3 (by rw [hmemOld, hmemNew]; exact iff_of_false hO hN)]
      refine ⟨?_, hpos⟩
      rw [hcount]
      simp [avatarContrib, hN, hO]
  · intro id
    rw [hrel]
    obtain ⟨h1, h2, h3, h4⟩ :=
      syncImageRefs_spec (collectImageIdsFromText (settings "user.avatar"))
        (collectImageIdsFromText (some value)) now store id
    obtain ⟨hcount, hpos⟩ := hinv id
    constructor
    · intro hmem
      obtain ⟨hold, hnew⟩ := h4 hmem
      have hO := (hmemOld id).mp hold
      have hN := fun h => hnew ((hmemNew id).mpr h)
      refine ⟨hO, hN, ?_⟩
      simp [avatarContrib, hO] at hcount
      cases hst : store id with
      | none =>
        simp only [hst] at hcount
        omega
      | some row =>
        simp only [hst] at hcount
        by_contra hz
        have hge : 2 ≤ row.ref_count := by omega
        exact ((h2 hold hnew).2 row hst hge).2 hmem
    · rintro ⟨hO, hN, hz⟩
      have hold := (hmemOld id).mpr hO
      have hnew := fun h => hN ((hmemNew id).mp h)
      simp [avatarContrib, hO] at hcount
      cases hst : store id with
      | none =>
        simp only [hst] at hcount
        omega
      | some row =>
        simp only [hst] at hcount
        have hle : row.ref_count ≤ 1 := by omega
        exact ((h2 hold hnew).1 (Or.inr ⟨row, hst, hle⟩)).2

/-- Concrete state for the C7 witness: the avatar embeds image `aa`, whose
only owner it is. -/
def settingsC7 : SettingsStore :=
  fun k => if k = "user.avatar" then some "diary-image://aa.png" else none

def storeC7 : RefStore :=
  fun id => if id = "aa" then some { ref_count := 1, updated_at := 0 } else none

def otherC7 : String → Nat := fun _ => 0

theorem settingsC7_invariant :
    refInvariant storeC7 otherC7 (settingsC7 "user.avatar") := by
  intro id
  have hcol : collectImageIdsFromText (settingsC7 "user.avatar") = ["aa"] := by
    decide
  constructor
  · by_cases hid : id = "aa"
    · subst hid
      simp [storeC7, otherC7, avatarContrib, hcol]
    · simp [storeC7, hid, otherC7, avatarContrib, hcol]
  · intro row h
    by_cases hid : id = "aa"
    · subst hid
      unfold storeC7 at h
      rw [if_pos rfl] at h
      injection h with h2
      rw [← h2]
    · unfold storeC7 at h
      rw [if_neg hid] at h
      cases h

/-- Witness for C7: clearing the avatar stores the new value and releases
`aa` (present only in the old avatar, owned by nothing else). -/
theorem claim_C7_witness :
    (setSetting settingsC7 "user.avatar" "" 5 storeC7).1 "user.avatar" =
      some "" ∧
    ("aa" ∈ (setSetting settingsC7 "user.avatar" "" 5 storeC7).2.2 ↔
      "aa" ∈ collectImageIdsFromText (settingsC7 "user.avatar") ∧
        "aa" ∉ collectImageIdsFromText (some "") ∧ otherC7 "aa" = 0) :=
  ⟨(claim_C7_avatar_refcount settingsC7 storeC7 otherC7 "" 5
      settingsC7_invariant).2.1,
   (claim_C7_avatar_refcount settingsC7 storeC7 otherC7 "" 5
      settingsC7_invariant).2.2 "aa"⟩

/-- C8 (code evaluation at the failing input): with an empty `archives`
table no term can match any archive, yet `searchDiaries` with keyword
`hello` returns `expandedKeywords = [hello]` — the original, unexpanded
term — because the collected set always contains the terms themselves;
the comment above the return (`diary.ts` line 507) and the spec say the
field is only returned when a term was actually expanded. -/
theorem claim_C8_expandedKeywords_always_present :
    emptyDB.archives = [] ∧
    (searchDiaries emptyDB
      { keyword := some "hello", mood := none, tags := none, dateFrom := none,
        dateTo := none, limit := none, offset := none }).expandedKeywords =
      some ["hello"] := by
  constructor
  · rfl
  · decide

/-- The non-keyword filters of `searchDiaries` (mood, date range, tags) as
one row predicate — the `WHERE` clause of a pure filter search. -/
def nonKeywordCondRow (db : DB) (params : SearchParams) (row : DiaryRow) : Bool :=
  (match params.mood with
   | some m => if m ≠ "" then row.mood == m else true
   | none => true) &&
    (match params.dateFrom with
     | some d => decide (d ≤ row.created_at)
     | none => true) &&
    (match params.dateTo with
     | some d => decide (row.created_at < nextDayStart d)
     | none => true) &&
    (match params.tags with
     | some ts => if ts ≠ [] then tagCondRow db ts row else true
     | none => true)

theorem searchKeywordGroups_empty (archives : List ArchiveRow) :
    searchKeywordGroups archives "" = [] := by
  have h : splitOnWs (jsTrim "") = [] := by decide
  simp [searchKeywordGroups, h]

theorem searchCondRow_no_keyword (db : DB) (params : SearchParams)
    (row : DiaryRow) (hkw : params.keyword = none) :
    searchCondRow db params row = nonKeywordCondRow db params row := by
  unfold searchCondRow nonKeywordCondRow
  rw [hkw]
  simp [searchKeywordGroups_empty, keywordCondRow, Bool.and_assoc]

/-- C9 counterexample: a completely empty search over a one-entry database
returns that entry (`total = 1`), not an empty result set — the unfiltered
query runs against the entry store. -/
def emptyParams : SearchParams :=
  { keyword := none, mood := none, tags := none, dateFrom := none,
    dateTo := none, limit := none, offset := none }

def rowOne : DiaryRow :=
  { id := "e1", title := "t", content := "c", plain_content := "p",
    mood := "calm", weather := none, created_at := 10, updated_at := 10 }

def dbOne : DB :=
  { entries := [rowOne], tags := [], diary_tags := [], archives := [],
    nextTagId := 1 }

theorem claim_C9_counterexample :
    (searchDiaries dbOne emptyParams).total = 1 ∧
    (searchDiaries dbOne emptyParams).entries = [rowOne] := by
  constructor
  · decide
  · decide

/-- C9 amended: an empty keyword with other filters still executes as a pure
filter search (the result is exactly the non-keyword filters applied to the
entry store), but completely empty params do NOT return an empty result set:
they run the unfiltered query and return every entry, newest first,
paged. -/
theorem claim_C9_empty_params (db : DB) (params : SearchParams)
    (hkw : params.keyword = none) :
    ((searchDiaries db params).total =
        (db.entries.filter (nonKeywordCondRow db params)).length ∧
      (searchDiaries db params).entries =
        ((jsSort (fun a b => b.created_at ≤ a.created_at)
            (db.entries.filter (nonKeywordCondRow db params))).drop
          (params.offset.getD 0)).take (params.limit.getD 20)) ∧
    (params.mood = none → params.tags = none → params.dateFrom = none →
      params.dateTo = none →
      (searchDiaries db params).total = db.entries.length) := by
  have hfilter : db.entries.filter (fun row => searchCondRow db params row) =
      db.entries.filter (nonKeywordCondRow db params) :=
    List.filter_congr (fun row _ => searchCondRow_no_keyword db params row hkw)
  have hexp : searchKeywordGroups db.archives (params.keyword.getD "") = [] := by
    rw [hkw]
    exact searchKeywordGroups_empty db.archives
  constructor
  · constructor
    · simp only [searchDiaries, hfilter]
    · simp only [searchDiaries, hfilter]
  · intro hm ht hdf hdt
    simp only [searchDiaries, hfilter]
    have hall : db.entries.filter (nonKeywordCondRow db params) = db.entries := by
      apply List.filter_eq_self.mpr
      intro row _
      simp [nonKeywordCondRow, hm, ht, hdf, hdt]
    rw [hall]

/-- Witness for C9's amended statement at a mood-only filter search and at
the completely empty params. -/
theorem claim_C9_witness :
    (emptyParams.keyword = none) ∧
    (searchDiaries dbOne emptyParams).total =
      (dbOne.entries.filter (nonKeywordCondRow dbOne emptyParams)).length ∧
    (searchDiaries dbOne emptyParams).total = dbOne.entries.length :=
  ⟨rfl,
   ((claim_C9_empty_params dbOne emptyParams rfl).1).1,
   (claim_C9_empty_params dbOne emptyParams rfl).2 rfl rfl rfl rfl⟩

end ShadowDiary
